import Mathlib

/-!
# avr-7seg-shiftreg-mux

A shallow embedding of the firmware's command decoder (`ISR(USART_RX_vect)` in
`main.c`), of the shift-register loader and display loop (`disp_load`, `main`), and of
the terminal key decoder (`vt_handle_key` / `_vt_kh_abort` in `lib/uart.c`), with the
properties proved about them.

Conventions.
* A byte (`uint8_t`) is a `Nat`; theorems assume `b < 256` where it matters and
  the one increment of a `uint8_t` is written `% 256`.
* The arrays `screen_buf[8]` and `screen[8]` are functions `Fin 8 → Nat`.
  An access outside an array ends the run in `Run.fault`.
* Every call of `uart_tx` and every store to a global is appended to a trace,
  so that the order of the echo and of the stores can be stated.
* The foreground code is embedded as the list of what it does to the pins
  (`PinEv`), in order.
* `vt_handle_key` takes a bound on the depth of its calls and the queue of bytes
  that are ready on the link when it polls.
-/

namespace Seg7

/-! ## main.c : segment definitions and tables -/

def SEG_A : Nat := 0x01
def SEG_B : Nat := 0x02
def SEG_C : Nat := 0x04
def SEG_D : Nat := 0x08
def SEG_E : Nat := 0x10
def SEG_F : Nat := 0x20
def SEG_G : Nat := 0x40
def SEG_DP : Nat := 0x80

def SYM_BLANK : Nat := 0
def SYM_0 : Nat := SEG_A ||| SEG_B ||| SEG_C ||| SEG_D ||| SEG_E ||| SEG_F
def SYM_1 : Nat := SEG_B ||| SEG_C
def SYM_2 : Nat := SEG_A ||| SEG_B ||| SEG_G ||| SEG_E ||| SEG_D
def SYM_3 : Nat := SEG_B ||| SEG_C ||| SEG_A ||| SEG_D ||| SEG_G
def SYM_4 : Nat := SEG_F ||| SEG_G ||| SEG_B ||| SEG_C
def SYM_5 : Nat := SEG_A ||| SEG_F ||| SEG_G ||| SEG_C ||| SEG_D
def SYM_6 : Nat := SEG_A ||| SEG_F ||| SEG_E ||| SEG_D ||| SEG_C ||| SEG_G
def SYM_7 : Nat := SEG_A ||| SEG_B ||| SEG_C
def SYM_8 : Nat := SEG_A ||| SEG_B ||| SEG_C ||| SEG_D ||| SEG_E ||| SEG_F ||| SEG_G
def SYM_9 : Nat := SEG_A ||| SEG_B ||| SEG_C ||| SEG_D ||| SEG_F ||| SEG_G
def SYM_A : Nat := SEG_A ||| SEG_B ||| SEG_C ||| SEG_E ||| SEG_F ||| SEG_G
def SYM_B : Nat := SEG_C ||| SEG_D ||| SEG_E ||| SEG_F ||| SEG_G
def SYM_C : Nat := SEG_A ||| SEG_D ||| SEG_E ||| SEG_F
def SYM_D : Nat := SEG_B ||| SEG_C ||| SEG_D ||| SEG_E ||| SEG_G
def SYM_E : Nat := SEG_A ||| SEG_D ||| SEG_E ||| SEG_F ||| SEG_G
def SYM_F : Nat := SEG_A ||| SEG_E ||| SEG_F ||| SEG_G

/-- Conversion table `num2seg[16]`. -/
def num2seg : List Nat :=
  [SYM_0, SYM_1, SYM_2, SYM_3,
   SYM_4, SYM_5, SYM_6, SYM_7,
   SYM_8, SYM_9, SYM_A, SYM_B,
   SYM_C, SYM_D, SYM_E, SYM_F]

/-- Brightness table `BRIGHT_128[128]`. -/
def BRIGHT_128 : List Nat :=
  [0,  1,  1,  1,  1,  1,  2,  2,  2,  2,  2,  3,  3,  3,  4,  4,  4,  4,
   5,  5,  6,  6,  6,  7,  7,  8,  8,  8,  9,  10, 10, 10, 11, 12, 13, 14,
   14, 15, 16, 17, 18, 20, 21, 22, 24, 26, 27, 28, 30, 31, 32, 34, 35, 36,
   38, 39, 40, 41, 42, 44, 45, 46, 48, 49, 50, 52, 54, 56, 58, 59, 61, 63,
   65, 67, 68, 69, 71, 72, 74, 76, 78, 80, 82, 85, 88, 90, 92, 95, 98, 100,
   103, 106, 109, 112, 116, 119, 122, 125, 129, 134, 138, 142, 147, 151,
   153, 156, 160, 163, 165, 170, 175, 180, 185, 190, 195, 200, 207, 214, 218,
   221, 225, 228, 232, 234, 241, 248, 254, 255]

/-- Read of a table in program memory, `pgm_read_byte(&tbl[i])`; `none` outside the table. -/
def pgm_read_byte (tbl : List Nat) (i : Nat) : Option Nat := tbl[i]?

/-! ## main.c : the decoder's globals -/

/-- The anonymous `enum { STATE_NONE, ... } state`. -/
inductive Mode where
  | STATE_NONE
  | STATE_ASCII
  | STATE_BINARY
  | STATE_BRIGHTNESS
  deriving DecidableEq, Repr

/-- The globals the interrupt routine stores to. -/
inductive Var where
  | screen_buf
  | scr_buf_i
  | screen
  | level
  | delay_l
  | state
  deriving DecidableEq, Repr

/-- One observable step of the interrupt routine: a byte put on the link, or a store to a global. -/
inductive Ev where
  | tx (b : Nat)
  | wr (v : Var)
  deriving DecidableEq, Repr

/-- The globals of `main.c` together with the trace of what has been done so far. -/
structure Mcu where
  screen_buf : Fin 8 → Nat
  scr_buf_i : Nat
  screen : Fin 8 → Nat
  level : Nat
  delay_l : Nat
  state : Mode
  trace : List Ev

/-- The state after the static initialisers: zeroed arrays, `level = delay_l = 255`, `STATE_NONE`. -/
def power_on : Mcu :=
  { screen_buf := fun _ => 0, scr_buf_i := 0, screen := fun _ => 0,
    level := 255, delay_l := 255, state := Mode.STATE_NONE, trace := [] }

/-- Result of running decoder code: `done s` ran to its end in `s`; `fault s` attempted an
access outside an array in `s`, after which C leaves the behaviour undefined. -/
inductive Run where
  | done (s : Mcu)
  | fault (s : Mcu)

/-- Sequencing: continue with `f` unless the run has faulted. -/
def Run.andThen (r : Run) (f : Mcu → Run) : Run :=
  match r with
  | Run.done s => f s
  | Run.fault s => Run.fault s

/-- Function `uart_tx(data)`: one byte goes out on the link. -/
def uart_tx (s : Mcu) (data : Nat) : Mcu :=
  { s with trace := s.trace ++ [Ev.tx data] }

/-- Store `state = m`. -/
def set_state (s : Mcu) (m : Mode) : Mcu :=
  { s with state := m, trace := s.trace ++ [Ev.wr Var.state] }

/-- Store `scr_buf_i = i`. -/
def set_scr_buf_i (s : Mcu) (i : Nat) : Mcu :=
  { s with scr_buf_i := i, trace := s.trace ++ [Ev.wr Var.scr_buf_i] }

/-- Store `level = v`. -/
def set_level (s : Mcu) (v : Nat) : Mcu :=
  { s with level := v, trace := s.trace ++ [Ev.wr Var.level] }

/-- Store `delay_l = v`. -/
def set_delay_l (s : Mcu) (v : Nat) : Mcu :=
  { s with delay_l := v, trace := s.trace ++ [Ev.wr Var.delay_l] }

/-- Store `screen[i] = v` for an index inside the array. -/
def set_screen (s : Mcu) (i : Fin 8) (v : Nat) : Mcu :=
  { s with screen := Function.update s.screen i v, trace := s.trace ++ [Ev.wr Var.screen] }

/-- Store `screen_buf[scr_buf_i++] = v`: faults when the cursor is outside the array. -/
def push_buf (s : Mcu) (v : Nat) : Run :=
  if h : s.scr_buf_i < 8 then
    Run.done { s with
      screen_buf := Function.update s.screen_buf ⟨s.scr_buf_i, h⟩ v,
      scr_buf_i := (s.scr_buf_i + 1) % 256,
      trace := s.trace ++ [Ev.wr Var.screen_buf, Ev.wr Var.scr_buf_i] }
  else Run.fault s

/-- Update `screen_buf[i] |= m`: faults when `i` is outside the array. -/
def or_buf (s : Mcu) (i m : Nat) : Run :=
  if h : i < 8 then
    Run.done { s with
      screen_buf := Function.update s.screen_buf ⟨i, h⟩ (s.screen_buf ⟨i, h⟩ ||| m),
      trace := s.trace ++ [Ev.wr Var.screen_buf] }
  else Run.fault s

/-- Function `cpy_buf2scr`: `for (i = 0; i < 8; i++) screen[i] = screen_buf[i];`. -/
def cpy_buf2scr (s : Mcu) : Mcu :=
  (List.finRange 8).foldl (fun s i => set_screen s i (s.screen_buf i)) s

/-- Incoming data IRQ, `ISR(USART_RX_vect)`, with `b` the byte `uart_rx()` returned. -/
def USART_RX_vect (s : Mcu) (b : Nat) : Run :=
  let s := uart_tx s b -- send back
  match s.state with
  | Mode.STATE_NONE =>
    -- make uppercase
    let b := if 97 ≤ b ∧ b ≤ 122 then b - (97 - 65) else b
    if b = 65 then
      Run.done (set_scr_buf_i (set_state s Mode.STATE_ASCII) 0)
    else if b = 66 then
      Run.done (set_scr_buf_i (set_state s Mode.STATE_BINARY) 0)
    else if b = 82 then
      Run.done ((List.finRange 8).foldl (fun s i => set_screen s i SYM_BLANK) s)
    else if b = 76 then
      Run.done (set_state s Mode.STATE_BRIGHTNESS)
    else
      Run.done s
  | Mode.STATE_BRIGHTNESS =>
    let s := set_level s b
    match pgm_read_byte BRIGHT_128 (s.level >>> 1) with
    | none => Run.fault s
    | some v => Run.done (set_state (set_delay_l s v) Mode.STATE_NONE)
  | Mode.STATE_ASCII =>
    -- make uppercase
    let b := if 97 ≤ b ∧ b ≤ 122 then b - (97 - 65) else b
    let r : Run :=
      if 48 ≤ b ∧ b ≤ 57 then
        -- numbers
        match pgm_read_byte num2seg (b - 48) with
        | none => Run.fault s
        | some v => push_buf s v
      else if 65 ≤ b ∧ b ≤ 70 then
        -- hex
        match pgm_read_byte num2seg (10 + (b - 65)) with
        | none => Run.fault s
        | some v => push_buf s v
      else if b = 45 then
        push_buf s SEG_G -- minus
      else if b = 46 then
        -- add period to previous symbol
        if s.scr_buf_i > 0 then or_buf s (s.scr_buf_i - 1) SEG_DP else Run.done s
      else
        -- default - blank
        push_buf s SYM_BLANK
    r.andThen fun s =>
      if s.scr_buf_i = 8 then Run.done (set_state (cpy_buf2scr s) Mode.STATE_NONE)
      else Run.done s
  | Mode.STATE_BINARY =>
    (push_buf s b).andThen fun s => -- no processing
      if s.scr_buf_i = 8 then Run.done (set_state (cpy_buf2scr s) Mode.STATE_NONE)
      else Run.done s

/-- The interrupt routine run once per received byte, in order of arrival. -/
def feed : Mcu → List Nat → Run
  | s, [] => Run.done s
  | s, b :: bs => (USART_RX_vect s b).andThen fun s => feed s bs

/-! ## lib/uart.c : the key decoder -/

/-- Key codes `VK_ESC`, `VK_ENTER`, `VK_TAB`, `VK_BACKSPACE`. They are defined in `lib/uart.h`,
which is not among the sources, so the decoder takes them as a parameter. -/
structure VKeys where
  VK_ESC : Nat
  VK_ENTER : Nat
  VK_TAB : Nat
  VK_BACKSPACE : Nat

/-- Modelled from the spec: the key codes of `lib/uart.h` (not among the sources). The spec
names ESC as byte 0x1B; ENTER, TAB and BACKSPACE get their ASCII codes. Only used to
instantiate theorems that hold for every assignment of the codes. -/
def vk_ascii : VKeys :=
  { VK_ESC := 27, VK_ENTER := 13, VK_TAB := 9, VK_BACKSPACE := 8 }

/-- State machine states, `KSTATE`. -/
inductive KSTATE where
  | GROUND
  | ESC
  | BR
  | O
  | WAITING_TILDE
  deriving DecidableEq, Repr

/-- The key decoder's globals, the receive side of the link, and the calls made to the handler.
`_vt_kh` tells whether a handler is assigned (the pointer is not `NULL`); `rx` holds the bytes
that are ready, in order, each time `uart_rx_ready()` is polled after the 2 ms delay;
`calls` lists the `(code, special)` pairs the handler was called with. -/
structure Term where
  _vt_kh : Bool
  _kstate : KSTATE
  _before_wtilde : Nat
  rx : List Nat
  calls : List (Nat × Bool)
  deriving DecidableEq, Repr

/-- Call of the assigned handler, `_vt_kh(code, special)`. -/
def call_kh (s : Term) (code : Nat) (special : Bool) : Term :=
  { s with calls := s.calls ++ [(code, special)] }

/-- How the `switch` in `vt_handle_key` is left: by `return`, or by `break` towards the wait
for the next key. -/
inductive Flow where
  | ret (s : Term)
  | next (s : Term)

/-- Function `_vt_kh_abort`; `handle` is `vt_handle_key`, which it calls back. -/
def _vt_kh_abort (k : VKeys) (handle : Term → Nat → Option Term) (s : Term) : Option Term :=
  let r : Option Term :=
    match s._kstate with
    | KSTATE.ESC => some (call_kh s k.VK_ESC true)
    | KSTATE.BR => some (call_kh (call_kh s k.VK_ESC true) 91 false)
    | KSTATE.O => some (call_kh (call_kh s k.VK_ESC true) 79 false)
    | KSTATE.WAITING_TILDE =>
      let s := call_kh (call_kh s k.VK_ESC true) 91 false
      handle s s._before_wtilde
    | KSTATE.GROUND => some s -- nop
  r.map fun s => { s with _kstate := KSTATE.GROUND }

/-- Handle a key received over UART, `vt_handle_key(c)`. The first argument bounds the depth of
the calls of `vt_handle_key`; `none` means the bound was not enough. -/
def vt_handle_key (k : VKeys) : Nat → Term → Nat → Option Term
  | 0, _, _ => none
  | fuel + 1, s, c =>
    if s._vt_kh = false then some s
    else
      let sw : Option Flow :=
        match s._kstate with
        | KSTATE.GROUND =>
          if c = 27 then
            some (Flow.next { s with _kstate := KSTATE.ESC })
          else if c = k.VK_ENTER ∨ c = k.VK_TAB ∨ c = k.VK_BACKSPACE then
            some (Flow.ret (call_kh s c true))
          else
            some (Flow.ret (call_kh s c false))
        | KSTATE.ESC =>
          if c = 91 then
            some (Flow.next { s with _kstate := KSTATE.BR })
          else if c = 79 then
            some (Flow.next { s with _kstate := KSTATE.O })
          else
            -- bad code
            (_vt_kh_abort k (fun t d => vt_handle_key k fuel t d) s).bind fun s =>
              (vt_handle_key k fuel s c).map Flow.ret
        | KSTATE.BR =>
          if c = 65 ∨ c = 66 ∨ c = 67 ∨ c = 68 then
            -- arrows
            some (Flow.ret { call_kh s c true with _kstate := KSTATE.GROUND })
          else if c = 50 ∨ c = 51 ∨ c = 53 ∨ c = 54 then
            -- ins del pgup pgdn: wait for terminating tilde
            some (Flow.next { s with _before_wtilde := c, _kstate := KSTATE.WAITING_TILDE })
          else
            -- bad key
            (_vt_kh_abort k (fun t d => vt_handle_key k fuel t d) s).bind fun s =>
              (vt_handle_key k fuel s c).map Flow.ret
        | KSTATE.O =>
          if c = 80 ∨ c = 81 ∨ c = 82 ∨ c = 83 ∨ c = 72 ∨ c = 70 then
            -- F keys, home, end
            some (Flow.ret { call_kh s c true with _kstate := KSTATE.GROUND })
          else
            -- bad key
            (_vt_kh_abort k (fun t d => vt_handle_key k fuel t d) s).bind fun s =>
              (vt_handle_key k fuel s c).map Flow.ret
        | KSTATE.WAITING_TILDE =>
          if c ≠ 126 then
            (_vt_kh_abort k (fun t d => vt_handle_key k fuel t d) s).bind fun s =>
              (vt_handle_key k fuel s c).map Flow.ret
          else
            some (Flow.ret { call_kh s s._before_wtilde true with _kstate := KSTATE.GROUND })
      match sw with
      | none => none
      | some (Flow.ret s) => some s
      | some (Flow.next s) =>
        -- wait for next key
        if s._kstate ≠ KSTATE.GROUND then
          match s.rx with
          | [] => _vt_kh_abort k (fun t d => vt_handle_key k fuel t d) s -- abort receiving
          | r :: rest => vt_handle_key k fuel { s with rx := rest } r
        else some s

/-! ## Notions used to state the properties -/

/-- The bytes '0'-'9', 'A'-'F' and 'a'-'f'. -/
def is_hex_digit (b : Nat) : Prop :=
  (48 ≤ b ∧ b ≤ 57) ∨ (65 ≤ b ∧ b ≤ 70) ∨ (97 ≤ b ∧ b ≤ 102)

instance is_hex_digit_decidable (b : Nat) : Decidable (is_hex_digit b) := by
  unfold is_hex_digit
  infer_instance

/-- Value 0..15 of a hex digit character, as the specification words it (not taken from the code). -/
def hex_value (b : Nat) : Nat :=
  if 48 ≤ b ∧ b ≤ 57 then b - 48
  else if 65 ≤ b ∧ b ≤ 70 then b - 65 + 10
  else b - 97 + 10

/-- What one payload byte does to the buffers when it is stored as the symbol `v`. -/
def Stored (m : Mode) (s : Mcu) (v : Nat) (s' : Mcu) : Prop :=
  s'.scr_buf_i = s.scr_buf_i + 1 ∧
  (∀ j : Fin 8, s'.screen_buf j = if j.val = s.scr_buf_i then v else s.screen_buf j) ∧
  s'.level = s.level ∧ s'.delay_l = s.delay_l ∧
  (s.scr_buf_i < 7 → s'.state = m ∧ s'.screen = s.screen) ∧
  (s.scr_buf_i = 7 → s'.state = Mode.STATE_NONE ∧ s'.screen = s'.screen_buf)

/-- The state a run stopped in, whether it ran to its end or faulted. -/
def Run.final (r : Run) : Mcu :=
  match r with
  | Run.done s => s
  | Run.fault s => s

/-- The run reached its end without an access outside an array. -/
def Run.is_done (r : Run) : Bool :=
  match r with
  | Run.done _ => true
  | Run.fault _ => false

/-- Two states agree on every global of the decoder (the trace apart). -/
def same_globals (a b : Mcu) : Prop :=
  a.screen_buf = b.screen_buf ∧ a.scr_buf_i = b.scr_buf_i ∧ a.screen = b.screen ∧
  a.level = b.level ∧ a.delay_l = b.delay_l ∧ a.state = b.state

/-- The event is a store to a global (not a byte on the link). -/
def Ev.is_wr (e : Ev) : Prop :=
  match e with
  | Ev.tx _ => False
  | Ev.wr _ => True

/-- The run `r`, started in `t`, only appended stores to the trace (no byte on the link), and
if it appended nothing it left every global as it was. -/
def OnlyStores (t : Mcu) (r : Run) : Prop :=
  ∃ ws, r.final.trace = t.trace ++ ws ∧ (∀ e ∈ ws, e.is_wr) ∧ (ws = [] → same_globals t r.final)

/-- The segment pattern of the hex digit value `n`, the `num2seg` lookup. -/
def pattern (n : Nat) : Nat := num2seg.getD n 0

/-- The decoder states that can arise: those reached from the power-on state by running the
interrupt routine on some sequence of bytes. -/
def Reachable (s : Mcu) : Prop :=
  ∃ bs : List Nat, (∀ b ∈ bs, b < 256) ∧ feed power_on bs = Run.done s

/-- The bound on the write cursor: at most 8, and at most 7 while a payload is being read. -/
def cursor_ok (s : Mcu) : Prop :=
  s.scr_buf_i ≤ 8 ∧
  ((s.state = Mode.STATE_ASCII ∨ s.state = Mode.STATE_BINARY) → s.scr_buf_i ≤ 7)

/-! ## main.c : loading the shift registers, the display loop -/

/-- The output pins `IO_DATA` (D2), `IO_CLK` (D3), `IO_STR` (D4). -/
inductive Pin where
  | IO_DATA
  | IO_CLK
  | IO_STR
  deriving DecidableEq, Repr

/-- What the foreground code does to the outside, in order: a pin is driven to a level
(`set_pin`, `pin_high`, `pin_low` of `lib/iopins.h`), or `n` cycles are waited
(`__builtin_avr_delay_cycles(n)`). -/
inductive PinEv where
  | set_pin (p : Pin) (v : Bool)
  | delay_cycles (n : Nat)
  deriving DecidableEq, Repr

/-- Drive a pin high, `pin_high(p)`. -/
def pin_high (p : Pin) : PinEv := PinEv.set_pin p true

/-- Drive a pin low, `pin_low(p)`. -/
def pin_low (p : Pin) : PinEv := PinEv.set_pin p false

/-- The loop of `disp_load`, with `n` iterations still to run on the 16-bit word `w`:
the top bit goes to the data line, the clock is pulsed, `w <<= 1`. -/
def shift_out : Nat → Nat → List PinEv
  | 0, _ => []
  | n + 1, w =>
    [PinEv.set_pin Pin.IO_DATA (decide (w &&& 0x8000 ≠ 0)), pin_high Pin.IO_CLK, pin_low Pin.IO_CLK]
      ++ shift_out n ((w <<< 1) % 65536)

/-- Function `disp_load(place, segments)`, as the list of what it does to the pins. -/
def disp_load (place segments : Nat) : List PinEv :=
  let w : Nat := if segments = 0 then 0 else ((1 <<< (place + 8)) ||| segments) % 65536
  shift_out 16 w ++ [pin_high Pin.IO_STR, pin_low Pin.IO_STR] -- pulse STR

/-- One turn of the outer `for` of the display loop in `main`, for digit `i`: the digit is
loaded, then `j` runs over 0..254 with the blanking load at `j == delay_l` and the delay. -/
def show_digit (screen : Fin 8 → Nat) (delay_l : Nat) (i : Fin 8) : List PinEv :=
  disp_load i.val (screen i) ++
    (List.range 255).flatMap fun j =>
      (if j = delay_l then disp_load 0 0 else []) ++ [PinEv.delay_cycles 5]

/-- One turn of the `while (1)` of `main`: the digits 0..7 in order. -/
def display_loop (screen : Fin 8 → Nat) (delay_l : Nat) : List PinEv :=
  (List.finRange 8).flatMap (show_digit screen delay_l)

/-- The 16 bits of the word `w`, most significant first. -/
def bits_msb_first (w : Nat) : List Bool :=
  (List.range 16).map fun i => w.testBit (15 - i)

/-- What putting the bit `b` on the data line and pulsing the clock once looks like. -/
def clocked_bit (b : Bool) : List PinEv :=
  [PinEv.set_pin Pin.IO_DATA b, pin_high Pin.IO_CLK, pin_low Pin.IO_CLK]

/-! ## lib/uart.c : bytes handed to the key decoder one call at a time -/

/-- The bytes `bs` handed to `vt_handle_key` one call after the other, each call with the
depth bound `fuel`. -/
def handle_keys (k : VKeys) (fuel : Nat) : Term → List Nat → Option Term
  | s, [] => some s
  | s, c :: cs => (vt_handle_key k fuel s c).bind fun s => handle_keys k fuel s cs

/-- The call the handler gets for a byte processed in GROUND: the byte itself, flagged special
exactly for ENTER, TAB and BACKSPACE. -/
def ground_event (k : VKeys) (c : Nat) : Nat × Bool :=
  (c, decide (c = k.VK_ENTER ∨ c = k.VK_TAB ∨ c = k.VK_BACKSPACE))

/-! ## Command decoder: lemmas -/

set_option maxRecDepth 8192

theorem feed_cons_done (s s1 : Mcu) (b : Nat) (l : List Nat)
    (h : USART_RX_vect s b = Run.done s1) : feed s (b :: l) = feed s1 l := by
  rw [feed, h]
  rfl

theorem finRange_eight : List.finRange 8 = [0, 1, 2, 3, 4, 5, 6, 7] := by decide

theorem cpy_buf2scr_eq (s : Mcu) :
    cpy_buf2scr s = { s with screen := s.screen_buf,
                             trace := s.trace ++ List.replicate 8 (Ev.wr Var.screen) } := by
  simp only [cpy_buf2scr, finRange_eight, List.foldl, set_screen]
  congr 1
  · funext i
    fin_cases i <;> simp [Function.update]
  · simp [List.replicate]

theorem blank_loop_eq (s : Mcu) :
    (List.finRange 8).foldl (fun s i => set_screen s i SYM_BLANK) s
      = { s with screen := fun _ => 0,
                 trace := s.trace ++ List.replicate 8 (Ev.wr Var.screen) } := by
  simp only [finRange_eight, List.foldl, set_screen]
  congr 1
  · funext i
    fin_cases i <;> simp [Function.update, SYM_BLANK]
  · simp [List.replicate]

theorem push_commit (s : Mcu) (v : Nat) (hi : s.scr_buf_i < 8) :
    ∃ s', (push_buf s v).andThen (fun s =>
        if s.scr_buf_i = 8 then Run.done (set_state (cpy_buf2scr s) Mode.STATE_NONE)
        else Run.done s) = Run.done s' ∧ Stored s.state s v s' := by
  have h256 : (s.scr_buf_i + 1) % 256 = s.scr_buf_i + 1 := Nat.mod_eq_of_lt (by omega)
  have hupd : ∀ j : Fin 8, Function.update s.screen_buf ⟨s.scr_buf_i, hi⟩ v j
      = if j.val = s.scr_buf_i then v else s.screen_buf j := by
    intro j
    by_cases hj : j.val = s.scr_buf_i
    · have : j = ⟨s.scr_buf_i, hi⟩ := Fin.ext hj
      subst this
      simp
    · have : j ≠ ⟨s.scr_buf_i, hi⟩ := fun h => hj (by rw [h])
      simp [Function.update_noteq this, hj]
  have hpush : push_buf s v = Run.done { s with
      screen_buf := Function.update s.screen_buf ⟨s.scr_buf_i, hi⟩ v,
      scr_buf_i := s.scr_buf_i + 1,
      trace := s.trace ++ [Ev.wr Var.screen_buf, Ev.wr Var.scr_buf_i] } := by
    simp only [push_buf, hi, dite_true, h256]
  rw [hpush]
  simp only [Run.andThen]
  by_cases h7 : s.scr_buf_i = 7
  · rw [if_pos (by omega)]
    refine ⟨_, rfl, ?_, ?_, ?_, ?_, ?_, ?_⟩
    · simp [set_state, cpy_buf2scr_eq]
    · simpa [set_state, cpy_buf2scr_eq] using hupd
    · simp [set_state, cpy_buf2scr_eq]
    · simp [set_state, cpy_buf2scr_eq]
    · intro h; omega
    · intro _; simp [set_state, cpy_buf2scr_eq]
  · rw [if_neg (by omega)]
    refine ⟨_, rfl, rfl, hupd, rfl, rfl, ?_, ?_⟩
    · intro _; exact ⟨rfl, rfl⟩
    · intro h; exact absurd h h7


theorem isr_ascii_hex (s : Mcu) (b : Nat) (hs : s.state = Mode.STATE_ASCII)
    (hi : s.scr_buf_i < 8) (hb : is_hex_digit b) :
    ∃ v s', pgm_read_byte num2seg (hex_value b) = some v ∧ v &&& SEG_DP = 0 ∧
      USART_RX_vect s b = Run.done s' ∧ Stored Mode.STATE_ASCII s v s' := by
  have key : ∃ v, pgm_read_byte num2seg (hex_value b) = some v ∧ v &&& SEG_DP = 0 ∧
      USART_RX_vect s b = (push_buf (uart_tx s b) v).andThen (fun s =>
        if s.scr_buf_i = 8 then Run.done (set_state (cpy_buf2scr s) Mode.STATE_NONE)
        else Run.done s) := by
    have hst : (uart_tx s b).state = Mode.STATE_ASCII := hs
    rcases hb with ⟨h1, h2⟩ | ⟨h1, h2⟩ | ⟨h1, h2⟩ <;> interval_cases b <;>
      exact ⟨_, rfl, by decide, by simp [USART_RX_vect, hst, pgm_read_byte, num2seg]; rfl⟩
  obtain ⟨v, hv, hdp, hrun⟩ := key
  obtain ⟨s', h1, h2⟩ := push_commit (uart_tx s b) v hi
  exact ⟨v, s', hv, hdp, hrun.trans h1, by rw [← hs]; exact h2⟩

theorem isr_binary (s : Mcu) (b : Nat) (hs : s.state = Mode.STATE_BINARY)
    (hi : s.scr_buf_i < 8) :
    ∃ s', USART_RX_vect s b = Run.done s' ∧ Stored Mode.STATE_BINARY s b s' := by
  have hst : (uart_tx s b).state = Mode.STATE_BINARY := hs
  obtain ⟨s', h1, h2⟩ := push_commit (uart_tx s b) b hi
  refine ⟨s', ?_, by rw [← hs]; exact h2⟩
  rw [← h1]
  simp [USART_RX_vect, hst]

theorem feed_fill (m : Mode) (P : Nat → Prop) (val : Nat → Nat)
    (hstep : ∀ s b, s.state = m → s.scr_buf_i < 8 → P b →
      ∃ s', USART_RX_vect s b = Run.done s' ∧ Stored m s (val b) s') :
    ∀ (l : List Nat) (s : Mcu), s.state = m → (∀ b ∈ l, P b) → l ≠ [] →
      s.scr_buf_i + l.length = 8 →
      ∃ s', feed s l = Run.done s' ∧ s'.state = Mode.STATE_NONE ∧
        s'.level = s.level ∧ s'.delay_l = s.delay_l ∧
        ∀ j : Fin 8, s'.screen j =
          if j.val < s.scr_buf_i then s.screen_buf j else val (l.getD (j.val - s.scr_buf_i) 0) := by
  intro l
  induction l with
  | nil => intro s _ _ h; exact absurd rfl h
  | cons b l ih =>
    intro s hs hP _ hlen
    simp only [List.length_cons] at hlen
    obtain ⟨s1, hrun, hi1, hbuf, hlv, hdl, hlt, heq⟩ :=
      hstep s b hs (by omega) (hP b (List.mem_cons_self b l))
    by_cases hl : l = []
    · subst hl
      simp only [List.length_nil] at hlen
      have h7 : s.scr_buf_i = 7 := by omega
      obtain ⟨hst, hscr⟩ := heq h7
      refine ⟨s1, by rw [feed_cons_done _ _ _ _ hrun]; rfl, hst, hlv, hdl, ?_⟩
      intro j
      rw [hscr, hbuf j, h7]
      have := j.isLt
      by_cases hj : j.val = 7
      · simp [hj]
      · have : j.val < 7 := by omega
        simp [hj, this]
    · have hlen' : 0 < l.length := List.length_pos.mpr hl
      obtain ⟨hst, _⟩ := hlt (by omega)
      obtain ⟨s', hrun', hst', hlv', hdl', hscr'⟩ :=
        ih s1 hst (fun c hc => hP c (List.mem_cons_of_mem b hc)) hl (by omega)
      refine ⟨s', by rw [feed_cons_done _ _ _ _ hrun]; exact hrun', hst', by rw [hlv', hlv],
        by rw [hdl', hdl], ?_⟩
      intro j
      rw [hscr' j, hbuf j, hi1]
      rcases Nat.lt_trichotomy j.val s.scr_buf_i with hj | hj | hj
      · have h1 : j.val < s.scr_buf_i + 1 := by omega
        have h2 : j.val ≠ s.scr_buf_i := by omega
        simp [h1, h2, hj]
      · simp [hj]
      · have h1 : ¬ j.val < s.scr_buf_i + 1 := by omega
        have h2 : ¬ j.val < s.scr_buf_i := by omega
        have h3 : j.val - s.scr_buf_i = (j.val - (s.scr_buf_i + 1)) + 1 := by omega
        rw [if_neg h1, if_neg h2, h3]
        simp


theorem getD_ofFn_eight (p : Fin 8 → Nat) (i : Fin 8) : (List.ofFn p).getD i.val 0 = p i := by
  have h : i.val < (List.ofFn p).length := by rw [List.length_ofFn]; exact i.isLt
  rw [List.getD_eq_getElem _ _ h, List.getElem_ofFn]

theorem isr_none_A (s : Mcu) (hs : s.state = Mode.STATE_NONE) :
    USART_RX_vect s 65 =
      Run.done (set_scr_buf_i (set_state (uart_tx s 65) Mode.STATE_ASCII) 0) := by
  have hst : (uart_tx s 65).state = Mode.STATE_NONE := hs
  simp [USART_RX_vect, hst]

theorem isr_none_B (s : Mcu) (b : Nat) (hb : b = 66 ∨ b = 98) (hs : s.state = Mode.STATE_NONE) :
    USART_RX_vect s b =
      Run.done (set_scr_buf_i (set_state (uart_tx s b) Mode.STATE_BINARY) 0) := by
  have hst : (uart_tx s b).state = Mode.STATE_NONE := hs
  rcases hb with rfl | rfl <;> simp [USART_RX_vect, hst]

/-- C1: from IDLE, after 'A' and eight hex digits the mode is IDLE again and every live digit
`screen[i]` is the `num2seg` entry of the value of the i-th digit, decimal point clear. -/
theorem c1_ascii_hex_digits (s : Mcu) (p : Fin 8 → Nat) (hs : s.state = Mode.STATE_NONE)
    (hp : ∀ i, is_hex_digit (p i)) :
    ∃ s', feed s (65 :: List.ofFn p) = Run.done s' ∧ s'.state = Mode.STATE_NONE ∧
      ∀ i : Fin 8, pgm_read_byte num2seg (hex_value (p i)) = some (s'.screen i) ∧
        s'.screen i &&& SEG_DP = 0 := by
  have hfill := feed_fill Mode.STATE_ASCII is_hex_digit
    (fun b => (pgm_read_byte num2seg (hex_value b)).getD 0)
    (fun t b ht hi hb => by
      obtain ⟨v, t', hv, _, hrun, hst⟩ := isr_ascii_hex t b ht hi hb
      exact ⟨t', hrun, by simpa [hv] using hst⟩)
  obtain ⟨s', hrun, hst, _, _, hscr⟩ := hfill (List.ofFn p)
    (set_scr_buf_i (set_state (uart_tx s 65) Mode.STATE_ASCII) 0) rfl
    (by intro b hb
        obtain ⟨i, rfl⟩ := (List.mem_ofFn p b).mp hb
        exact hp i)
    (by intro h; simpa using congrArg List.length h)
    (by simp [set_scr_buf_i])
  refine ⟨s', by rw [feed_cons_done _ _ _ _ (isr_none_A s hs)]; exact hrun, hst, ?_⟩
  intro i
  have hi := hscr i
  simp only [set_scr_buf_i, Nat.not_lt_zero, if_false, Nat.sub_zero] at hi
  rw [getD_ofFn_eight] at hi
  obtain ⟨v, _, hv, hdp, _, _⟩ := isr_ascii_hex
    (set_scr_buf_i (set_state (uart_tx s 65) Mode.STATE_ASCII) 0) (p i) rfl (by simp [set_scr_buf_i]) (hp i)
  rw [hv] at hi
  simp only [Option.getD_some] at hi
  rw [hi]
  exact ⟨hv, hdp⟩

theorem c1_ascii_hex_digits_witness :
    ∃ s', feed power_on (65 :: List.ofFn (fun i : Fin 8 => [48, 57, 65, 70, 97, 102, 51, 99].getD i.val 48)) = Run.done s' ∧
      s'.state = Mode.STATE_NONE ∧
      ∀ i : Fin 8, pgm_read_byte num2seg (hex_value ([48, 57, 65, 70, 97, 102, 51, 99].getD i.val 48)) = some (s'.screen i) ∧
        s'.screen i &&& SEG_DP = 0 :=
  c1_ascii_hex_digits power_on (fun i => [48, 57, 65, 70, 97, 102, 51, 99].getD i.val 48) rfl (by decide)

/-- C2: from IDLE, after 'B' or 'b' and eight arbitrary bytes the mode is IDLE again and the
live buffer holds exactly those bytes, in the order received. -/
theorem c2_binary_verbatim (s : Mcu) (c : Nat) (p : Fin 8 → Nat) (hs : s.state = Mode.STATE_NONE)
    (hc : c = 66 ∨ c = 98) :
    ∃ s', feed s (c :: List.ofFn p) = Run.done s' ∧ s'.state = Mode.STATE_NONE ∧
      ∀ i : Fin 8, s'.screen i = p i := by
  have hfill := feed_fill Mode.STATE_BINARY (fun _ => True) (fun b => b)
    (fun t b ht hi _ => isr_binary t b ht hi)
  obtain ⟨s', hrun, hst, _, _, hscr⟩ := hfill (List.ofFn p)
    (set_scr_buf_i (set_state (uart_tx s c) Mode.STATE_BINARY) 0) rfl
    (fun _ _ => trivial)
    (by intro h; simpa using congrArg List.length h)
    (by simp [set_scr_buf_i])
  refine ⟨s', by rw [feed_cons_done _ _ _ _ (isr_none_B s c hc hs)]; exact hrun, hst, ?_⟩
  intro i
  have hi := hscr i
  simp only [set_scr_buf_i, Nat.not_lt_zero, if_false, Nat.sub_zero] at hi
  rw [hi, getD_ofFn_eight]

theorem c2_binary_verbatim_witness :
    ∃ s', feed power_on (98 :: List.ofFn (fun i : Fin 8 => 82 + 25 * i.val)) = Run.done s' ∧
      s'.state = Mode.STATE_NONE ∧ ∀ i : Fin 8, s'.screen i = 82 + 25 * i.val :=
  c2_binary_verbatim power_on 98 (fun i => 82 + 25 * i.val) rfl (Or.inr rfl)

theorem isr_none_R (s : Mcu) (hs : s.state = Mode.STATE_NONE) :
    USART_RX_vect s 82 =
      Run.done { s with screen := fun _ => 0,
                        trace := s.trace ++ Ev.tx 82 :: List.replicate 8 (Ev.wr Var.screen) } := by
  simp [USART_RX_vect, hs, blank_loop_eq, uart_tx]

/-- C3 as stated fails outside IDLE: in ASCII_INPUT and BINARY_INPUT the byte 'R' is stored as
payload (mode kept, cursor advanced, live digits kept), in BRIGHTNESS_INPUT it is taken as the
level (live digits kept). -/
theorem c3_counterexample :
    ((USART_RX_vect { power_on with screen := fun _ => 255, state := Mode.STATE_ASCII } 82).is_done = true ∧
     (USART_RX_vect { power_on with screen := fun _ => 255, state := Mode.STATE_ASCII } 82).final.state
        ≠ Mode.STATE_NONE ∧
     (USART_RX_vect { power_on with screen := fun _ => 255, state := Mode.STATE_ASCII } 82).final.scr_buf_i = 1 ∧
     (USART_RX_vect { power_on with screen := fun _ => 255, state := Mode.STATE_ASCII } 82).final.screen 0
        = 255) ∧
    ((USART_RX_vect { power_on with screen := fun _ => 255, state := Mode.STATE_BINARY } 82).is_done = true ∧
     (USART_RX_vect { power_on with screen := fun _ => 255, state := Mode.STATE_BINARY } 82).final.state
        ≠ Mode.STATE_NONE ∧
     (USART_RX_vect { power_on with screen := fun _ => 255, state := Mode.STATE_BINARY } 82).final.screen_buf 0
        = 82 ∧
     (USART_RX_vect { power_on with screen := fun _ => 255, state := Mode.STATE_BINARY } 82).final.screen 0
        = 255) ∧
    ((USART_RX_vect { power_on with screen := fun _ => 255, state := Mode.STATE_BRIGHTNESS } 82).is_done = true ∧
     (USART_RX_vect { power_on with screen := fun _ => 255, state := Mode.STATE_BRIGHTNESS } 82).final.level
        = 82 ∧
     (USART_RX_vect { power_on with screen := fun _ => 255, state := Mode.STATE_BRIGHTNESS } 82).final.screen 0
        = 255) := by
  refine ⟨⟨?_, ?_, ?_, ?_⟩, ⟨?_, ?_, ?_, ?_⟩, ⟨?_, ?_, ?_⟩⟩ <;> decide

/-- C3, amended: in IDLE mode (any cursor, any buffers) the byte 'R' blanks all 8 live digits
and leaves the mode IDLE, and a second 'R' changes no global. -/
theorem c3_reset_from_idle (s : Mcu) (hs : s.state = Mode.STATE_NONE) :
    ∃ s1, USART_RX_vect s 82 = Run.done s1 ∧ (∀ i, s1.screen i = 0) ∧
      s1.state = Mode.STATE_NONE ∧
      ∃ s2, USART_RX_vect s1 82 = Run.done s2 ∧ same_globals s1 s2 := by
  refine ⟨_, isr_none_R s hs, fun _ => rfl, hs, _, isr_none_R _ hs, ?_⟩
  exact ⟨rfl, rfl, rfl, rfl, rfl, rfl⟩

theorem c3_reset_from_idle_witness :
    ∃ s1, USART_RX_vect { power_on with screen := fun _ => 255 } 82 = Run.done s1 ∧
      (∀ i, s1.screen i = 0) ∧ s1.state = Mode.STATE_NONE ∧
      ∃ s2, USART_RX_vect s1 82 = Run.done s2 ∧ same_globals s1 s2 :=
  c3_reset_from_idle { power_on with screen := fun _ => 255 } rfl

theorem onlyStores_fault (t : Mcu) : OnlyStores t (Run.fault t) :=
  ⟨[], by simp [Run.final], by simp, fun _ => ⟨rfl, rfl, rfl, rfl, rfl, rfl⟩⟩

theorem onlyStores_refl (t : Mcu) : OnlyStores t (Run.done t) :=
  ⟨[], by simp [Run.final], by simp, fun _ => ⟨rfl, rfl, rfl, rfl, rfl, rfl⟩⟩

theorem onlyStores_done (t u : Mcu) (ws : List Ev) (hne : ws ≠ [])
    (htr : u.trace = t.trace ++ ws) (hws : ∀ e ∈ ws, e.is_wr) : OnlyStores t (Run.done u) :=
  ⟨ws, htr, hws, fun h => absurd h hne⟩

theorem same_globals_trans {a b c : Mcu} (h1 : same_globals a b) (h2 : same_globals b c) :
    same_globals a c := by
  obtain ⟨a1, a2, a3, a4, a5, a6⟩ := h1
  obtain ⟨b1, b2, b3, b4, b5, b6⟩ := h2
  exact ⟨a1.trans b1, a2.trans b2, a3.trans b3, a4.trans b4, a5.trans b5, a6.trans b6⟩

theorem onlyStores_andThen (t : Mcu) (r : Run) (f : Mcu → Run)
    (h1 : OnlyStores t r) (h2 : ∀ u, OnlyStores u (f u)) : OnlyStores t (r.andThen f) := by
  cases r with
  | fault u => exact h1
  | done u =>
    obtain ⟨ws1, htr1, hws1, hg1⟩ := h1
    obtain ⟨ws2, htr2, hws2, hg2⟩ := h2 u
    simp only [Run.final] at htr1 hg1
    refine ⟨ws1 ++ ws2, ?_, ?_, ?_⟩
    · show (f u).final.trace = _
      rw [htr2, htr1, List.append_assoc]
    · intro e he
      rcases List.mem_append.mp he with h | h
      · exact hws1 e h
      · exact hws2 e h
    · intro h
      obtain ⟨e1, e2⟩ := List.append_eq_nil.mp h
      exact same_globals_trans (hg1 e1) (hg2 e2)

theorem onlyStores_push (t : Mcu) (v : Nat) : OnlyStores t (push_buf t v) := by
  unfold push_buf
  split
  · exact onlyStores_done _ _ [Ev.wr Var.screen_buf, Ev.wr Var.scr_buf_i] (by simp) rfl
      (by simp [Ev.is_wr])
  · exact onlyStores_fault t

theorem onlyStores_or (t : Mcu) (i m : Nat) : OnlyStores t (or_buf t i m) := by
  unfold or_buf
  split
  · exact onlyStores_done _ _ [Ev.wr Var.screen_buf] (by simp) rfl (by simp [Ev.is_wr])
  · exact onlyStores_fault t

theorem onlyStores_commit (u : Mcu) :
    OnlyStores u (if u.scr_buf_i = 8 then Run.done (set_state (cpy_buf2scr u) Mode.STATE_NONE)
      else Run.done u) := by
  split
  · exact onlyStores_done _ _ (List.replicate 8 (Ev.wr Var.screen) ++ [Ev.wr Var.state]) (by simp)
      (by simp [set_state, cpy_buf2scr_eq]) (by simp [Ev.is_wr])
  · exact onlyStores_refl u

theorem isr_onlyStores (s : Mcu) (b : Nat) : OnlyStores (uart_tx s b) (USART_RX_vect s b) := by
  unfold USART_RX_vect
  generalize uart_tx s b = t
  dsimp only
  split
  · -- STATE_NONE
    generalize (if 97 ≤ b ∧ b ≤ 122 then b - (97 - 65) else b) = c
    split_ifs
    · exact onlyStores_done _ _ [Ev.wr Var.state, Ev.wr Var.scr_buf_i] (by simp)
        (by simp [set_state, set_scr_buf_i]) (by simp [Ev.is_wr])
    · exact onlyStores_done _ _ [Ev.wr Var.state, Ev.wr Var.scr_buf_i] (by simp)
        (by simp [set_state, set_scr_buf_i]) (by simp [Ev.is_wr])
    · exact onlyStores_done _ _ (List.replicate 8 (Ev.wr Var.screen)) (by simp)
        (by simp [blank_loop_eq]) (by simp [Ev.is_wr])
    · exact onlyStores_done _ _ [Ev.wr Var.state] (by simp) (by simp [set_state])
        (by simp [Ev.is_wr])
    · exact onlyStores_refl t
  · -- STATE_BRIGHTNESS
    split
    · exact ⟨[Ev.wr Var.level], rfl, by simp [Ev.is_wr], fun h => by simp at h⟩
    · exact onlyStores_done _ _ [Ev.wr Var.level, Ev.wr Var.delay_l, Ev.wr Var.state] (by simp)
        (by simp [set_state, set_delay_l, set_level]) (by simp [Ev.is_wr])
  · -- STATE_ASCII
    refine onlyStores_andThen _ _ _ ?_ onlyStores_commit
    generalize (if 97 ≤ b ∧ b ≤ 122 then b - (97 - 65) else b) = c
    split_ifs
    · split
      · exact onlyStores_fault t
      · exact onlyStores_push t _
    · split
      · exact onlyStores_fault t
      · exact onlyStores_push t _
    · exact onlyStores_push t _
    · exact onlyStores_or t _ _
    · exact onlyStores_refl t
    · exact onlyStores_push t _
  · -- STATE_BINARY
    exact onlyStores_andThen _ _ _ (onlyStores_push t b) onlyStores_commit

/-- C4: for every state and byte `b`, one run of the interrupt routine puts exactly one byte on
the link, namely `b` as received, and every store to a global comes after it in the trace; a run
that stores nothing leaves all globals unchanged. -/
theorem c4_echo_first (s : Mcu) (b : Nat) :
    ∃ ws, (USART_RX_vect s b).final.trace = s.trace ++ Ev.tx b :: ws ∧
      (∀ e ∈ ws, e.is_wr) ∧ (ws = [] → same_globals s (USART_RX_vect s b).final) := by
  obtain ⟨ws, htr, hws, hg⟩ := isr_onlyStores s b
  refine ⟨ws, ?_, hws, hg⟩
  rw [htr]
  simp [uart_tx]

theorem bright_sorted : List.Sorted (· ≤ ·) BRIGHT_128 := by
  unfold BRIGHT_128
  decide

theorem bright_getD_mono (i j : Nat) (hij : i ≤ j) (hj : j < 128) :
    BRIGHT_128.getD i 0 ≤ BRIGHT_128.getD j 0 := by
  have hlen : BRIGHT_128.length = 128 := by decide
  have hi' : i < BRIGHT_128.length := by omega
  have hj' : j < BRIGHT_128.length := by omega
  rw [List.getD_eq_getElem _ _ hi', List.getD_eq_getElem _ _ hj']
  exact bright_sorted.rel_get_of_le (a := ⟨i, hi'⟩) (b := ⟨j, hj'⟩) hij

theorem isr_none_L (s : Mcu) (hs : s.state = Mode.STATE_NONE) :
    USART_RX_vect s 76 = Run.done (set_state (uart_tx s 76) Mode.STATE_BRIGHTNESS) := by
  have hst : (uart_tx s 76).state = Mode.STATE_NONE := hs
  simp [USART_RX_vect, hst]

theorem isr_brightness (s : Mcu) (v : Nat) (hs : s.state = Mode.STATE_BRIGHTNESS) (hv : v < 256) :
    USART_RX_vect s v = Run.done (set_state (set_delay_l (set_level (uart_tx s v) v)
      (BRIGHT_128.getD (v / 2) 0)) Mode.STATE_NONE) ∧
    pgm_read_byte BRIGHT_128 (v / 2) = some (BRIGHT_128.getD (v / 2) 0) := by
  have hst : (uart_tx s v).state = Mode.STATE_BRIGHTNESS := hs
  have hlen : BRIGHT_128.length = 128 := by decide
  have hidx : v / 2 < BRIGHT_128.length := by omega
  have hrd : pgm_read_byte BRIGHT_128 (v / 2) = some (BRIGHT_128.getD (v / 2) 0) := by
    rw [pgm_read_byte, List.getD_eq_getElem _ _ hidx, List.getElem?_eq_getElem hidx]
  have hsh : (set_level (uart_tx s v) v).level >>> 1 = v / 2 := by
    simp [set_level, Nat.shiftRight_eq_div_pow]
  refine ⟨?_, hrd⟩
  unfold USART_RX_vect
  simp only [hst, hsh, hrd]

theorem feed_L (s : Mcu) (v : Nat) (hs : s.state = Mode.STATE_NONE) (hv : v < 256) :
    feed s [76, v] = Run.done (set_state (set_delay_l (set_level
      (uart_tx (set_state (uart_tx s 76) Mode.STATE_BRIGHTNESS) v) v)
      (BRIGHT_128.getD (v / 2) 0)) Mode.STATE_NONE) := by
  rw [feed_cons_done _ _ _ _ (isr_none_L s hs),
    feed_cons_done _ _ _ _ (isr_brightness _ v rfl hv).1]
  rfl

/-- C5: from IDLE, 'L' followed by a byte `v` sets `delay_l` to `BRIGHT_128[v / 2]` and returns
to IDLE; the threshold is non-decreasing in `v`, is the least table entry for `v = 0` and the
greatest for `v = 255`. -/
theorem c5_brightness_threshold (s : Mcu) (hs : s.state = Mode.STATE_NONE) :
    (∀ v, v < 256 → ∃ s', feed s [76, v] = Run.done s' ∧ s'.state = Mode.STATE_NONE ∧
        pgm_read_byte BRIGHT_128 (v / 2) = some s'.delay_l) ∧
    (∀ v w s1 s2, v ≤ w → w < 256 → feed s [76, v] = Run.done s1 →
        feed s [76, w] = Run.done s2 → s1.delay_l ≤ s2.delay_l) ∧
    (∀ s0, feed s [76, 0] = Run.done s0 → ∀ e ∈ BRIGHT_128, s0.delay_l ≤ e) ∧
    (∀ s1, feed s [76, 255] = Run.done s1 → ∀ e ∈ BRIGHT_128, e ≤ s1.delay_l) := by
  refine ⟨?_, ?_, ?_, ?_⟩
  · intro v hv
    exact ⟨_, feed_L s v hs hv, rfl, (isr_brightness (set_state (uart_tx s 76) Mode.STATE_BRIGHTNESS) v rfl hv).2⟩
  · intro v w s1 s2 hvw hw h1 h2
    rw [feed_L s v hs (by omega)] at h1
    rw [feed_L s w hs hw] at h2
    cases h1
    cases h2
    exact bright_getD_mono _ _ (Nat.div_le_div_right hvw) (by omega)
  · intro s0 h0 e _
    rw [feed_L s 0 hs (by omega)] at h0
    cases h0
    exact Nat.zero_le e
  · intro s1 h1
    rw [feed_L s 255 hs (by omega)] at h1
    cases h1
    show ∀ e ∈ BRIGHT_128, e ≤ 255
    decide

theorem c5_brightness_threshold_witness :
    (∀ v, v < 256 → ∃ s', feed power_on [76, v] = Run.done s' ∧ s'.state = Mode.STATE_NONE ∧
        pgm_read_byte BRIGHT_128 (v / 2) = some s'.delay_l) ∧
    (∀ v w s1 s2, v ≤ w → w < 256 → feed power_on [76, v] = Run.done s1 →
        feed power_on [76, w] = Run.done s2 → s1.delay_l ≤ s2.delay_l) ∧
    (∀ s0, feed power_on [76, 0] = Run.done s0 → ∀ e ∈ BRIGHT_128, s0.delay_l ≤ e) ∧
    (∀ s1, feed power_on [76, 255] = Run.done s1 → ∀ e ∈ BRIGHT_128, e ≤ s1.delay_l) :=
  c5_brightness_threshold power_on rfl

theorem run_eq_done_final (r : Run) (h : r.is_done = true) : r = Run.done r.final := by
  cases r with
  | done s => rfl
  | fault s => simp [Run.is_done] at h

theorem feed_append_one (l : List Nat) (s s1 : Mcu) (d : Nat) (h : feed s l = Run.done s1) :
    feed s (l ++ [d]) = USART_RX_vect s1 d := by
  induction l generalizing s with
  | nil =>
    simp only [feed] at h
    cases h
    simp only [List.nil_append, feed]
    generalize USART_RX_vect s1 d = r
    cases r <;> rfl
  | cons b l ih =>
    simp only [List.cons_append, feed] at h ⊢
    cases hb : USART_RX_vect s b with
    | fault t => rw [hb] at h; simp [Run.andThen] at h
    | done t =>
      rw [hb] at h
      exact ih t h

/-- C6 as stated fails: the payload '1','.','2','.','3','4','5','6','7' holds only seven
symbols, so the cursor stops at 7, nothing is committed, the mode is still ASCII_INPUT and the
live buffer is what it was (blank after power-on). -/
theorem c6_counterexample :
    (feed power_on [65, 49, 46, 50, 46, 51, 52, 53, 54, 55]).is_done = true ∧
    (feed power_on [65, 49, 46, 50, 46, 51, 52, 53, 54, 55]).final.state ≠ Mode.STATE_NONE ∧
    (feed power_on [65, 49, 46, 50, 46, 51, 52, 53, 54, 55]).final.scr_buf_i = 7 ∧
    (feed power_on [65, 49, 46, 50, 46, 51, 52, 53, 54, 55]).final.screen 0 = 0 ∧
    (feed power_on [65, 49, 46, 50, 46, 51, 52, 53, 54, 55]).final.screen 0
      ≠ pattern 1 ||| SEG_DP := by
  refine ⟨?_, ?_, ?_, ?_, ?_⟩ <;> decide

/-- C6, amended: from IDLE, after 'A' and the payload '1','.','2','.','3','4','5','6','7' the
decoder is still in ASCII_INPUT with cursor 7 and the live buffer is unchanged, while the staging
buffer holds pattern(1) and pattern(2) with the decimal point, then pattern(3..7); one more hex
digit `d` commits: the live buffer is then those seven digits followed by pattern(d), mode IDLE. -/
theorem c6_decimal_points (s : Mcu) (d : Nat) (hs : s.state = Mode.STATE_NONE)
    (hd : is_hex_digit d) :
    (∃ s1, feed s [65, 49, 46, 50, 46, 51, 52, 53, 54, 55] = Run.done s1 ∧
      s1.state = Mode.STATE_ASCII ∧ s1.scr_buf_i = 7 ∧ s1.screen = s.screen ∧
      s1.screen_buf 0 = pattern 1 ||| SEG_DP ∧ s1.screen_buf 1 = pattern 2 ||| SEG_DP ∧
      s1.screen_buf 2 = pattern 3 ∧ s1.screen_buf 3 = pattern 4 ∧ s1.screen_buf 4 = pattern 5 ∧
      s1.screen_buf 5 = pattern 6 ∧ s1.screen_buf 6 = pattern 7) ∧
    (∃ s2, feed s ([65, 49, 46, 50, 46, 51, 52, 53, 54, 55] ++ [d]) = Run.done s2 ∧
      s2.state = Mode.STATE_NONE ∧
      s2.screen 0 = pattern 1 ||| SEG_DP ∧ s2.screen 1 = pattern 2 ||| SEG_DP ∧
      s2.screen 2 = pattern 3 ∧ s2.screen 3 = pattern 4 ∧ s2.screen 4 = pattern 5 ∧
      s2.screen 5 = pattern 6 ∧ s2.screen 6 = pattern 7 ∧
      s2.screen 7 = pattern (hex_value d)) := by
  obtain ⟨buf, i, scr, lvl, dl, st, tr⟩ := s
  simp only at hs
  subst hs
  have hdone : feed ⟨buf, i, scr, lvl, dl, Mode.STATE_NONE, tr⟩
      [65, 49, 46, 50, 46, 51, 52, 53, 54, 55] = Run.done
        (feed ⟨buf, i, scr, lvl, dl, Mode.STATE_NONE, tr⟩
          [65, 49, 46, 50, 46, 51, 52, 53, 54, 55]).final :=
    run_eq_done_final _ rfl
  refine ⟨⟨_, hdone, rfl, rfl, rfl, rfl, rfl, rfl, rfl, rfl, rfl, rfl⟩, ?_⟩
  obtain ⟨v, s2, hv, _, hrun, hi, hbuf, _, _, _, hcommit⟩ := isr_ascii_hex
    (feed ⟨buf, i, scr, lvl, dl, Mode.STATE_NONE, tr⟩
      [65, 49, 46, 50, 46, 51, 52, 53, 54, 55]).final d rfl (show 7 < 8 by decide) hd
  obtain ⟨hst, hscr⟩ := hcommit rfl
  have hpat : pattern (hex_value d) = v := by
    simp only [pgm_read_byte] at hv
    simp [pattern, List.getD_eq_getElem?_getD, hv]
  refine ⟨s2, by rw [feed_append_one _ _ _ d hdone]; exact hrun, hst, ?_⟩
  rw [hscr, hpat]
  refine ⟨?_, ?_, ?_, ?_, ?_, ?_, ?_, ?_⟩
  all_goals rw [hbuf]
  all_goals rfl

theorem c6_decimal_points_witness :
    (∃ s1, feed power_on [65, 49, 46, 50, 46, 51, 52, 53, 54, 55] = Run.done s1 ∧
      s1.state = Mode.STATE_ASCII ∧ s1.scr_buf_i = 7 ∧ s1.screen = power_on.screen ∧
      s1.screen_buf 0 = pattern 1 ||| SEG_DP ∧ s1.screen_buf 1 = pattern 2 ||| SEG_DP ∧
      s1.screen_buf 2 = pattern 3 ∧ s1.screen_buf 3 = pattern 4 ∧ s1.screen_buf 4 = pattern 5 ∧
      s1.screen_buf 5 = pattern 6 ∧ s1.screen_buf 6 = pattern 7) ∧
    (∃ s2, feed power_on ([65, 49, 46, 50, 46, 51, 52, 53, 54, 55] ++ [56]) = Run.done s2 ∧
      s2.state = Mode.STATE_NONE ∧
      s2.screen 0 = pattern 1 ||| SEG_DP ∧ s2.screen 1 = pattern 2 ||| SEG_DP ∧
      s2.screen 2 = pattern 3 ∧ s2.screen 3 = pattern 4 ∧ s2.screen 4 = pattern 5 ∧
      s2.screen 5 = pattern 6 ∧ s2.screen 6 = pattern 7 ∧
      s2.screen 7 = pattern (hex_value 56)) :=
  c6_decimal_points power_on 56 rfl (by decide)

/-! ## Key decoder -/

/-- C7: with a handler assigned and the decoder in GROUND, `vt_handle_key(0x1B)` with no byte
ready after the wait calls the handler exactly once, with `(VK_ESC, true)`, and returns in
GROUND. -/
theorem c7_lone_esc (k : VKeys) (s : Term) (fuel : Nat) (hkh : s._vt_kh = true)
    (hg : s._kstate = KSTATE.GROUND) (hrx : s.rx = []) :
    ∃ s', vt_handle_key k (fuel + 1) s 27 = some s' ∧
      s'.calls = s.calls ++ [(k.VK_ESC, true)] ∧ s'._kstate = KSTATE.GROUND := by
  obtain ⟨kh, st, bw, rx, calls⟩ := s
  simp only at hkh hg hrx
  subst hkh hg hrx
  exact ⟨{ _vt_kh := true, _kstate := KSTATE.GROUND, _before_wtilde := bw, rx := [],
           calls := calls ++ [(k.VK_ESC, true)] },
    by simp [vt_handle_key, _vt_kh_abort, call_kh], rfl, rfl⟩

theorem c7_lone_esc_witness :
    ∃ s', vt_handle_key vk_ascii (0 + 1)
        { _vt_kh := true, _kstate := KSTATE.GROUND, _before_wtilde := 0, rx := [], calls := [] } 27
        = some s' ∧
      s'.calls = [] ++ [(vk_ascii.VK_ESC, true)] ∧ s'._kstate = KSTATE.GROUND :=
  c7_lone_esc vk_ascii
    { _vt_kh := true, _kstate := KSTATE.GROUND, _before_wtilde := 0, rx := [], calls := [] } 0
    rfl rfl rfl

/-- C8: with a handler assigned and the decoder in GROUND, the bytes 0x1B, '[', c with c an
arrow code 65..68 (the two follow-up bytes ready on the link) call the handler exactly once,
with `(c, true)`, make no literal call, and return in GROUND. -/
theorem c8_arrow_keys (k : VKeys) (s : Term) (c : Nat) (rest : List Nat) (fuel : Nat)
    (hkh : s._vt_kh = true) (hg : s._kstate = KSTATE.GROUND) (hrx : s.rx = 91 :: c :: rest)
    (hc : c = 65 ∨ c = 66 ∨ c = 67 ∨ c = 68) :
    ∃ s', vt_handle_key k (fuel + 3) s 27 = some s' ∧
      s'.calls = s.calls ++ [(c, true)] ∧ s'._kstate = KSTATE.GROUND ∧ s'.rx = rest := by
  obtain ⟨kh, st, bw, rx, calls⟩ := s
  simp only at hkh hg hrx
  subst hkh hg hrx
  exact ⟨{ _vt_kh := true, _kstate := KSTATE.GROUND, _before_wtilde := bw, rx := rest,
           calls := calls ++ [(c, true)] },
    by simp [vt_handle_key, hc, call_kh], rfl, rfl, rfl⟩

theorem c8_arrow_keys_witness :
    ∃ s', vt_handle_key vk_ascii (0 + 3)
        { _vt_kh := true, _kstate := KSTATE.GROUND, _before_wtilde := 0, rx := [91, 65],
          calls := [] } 27 = some s' ∧
      s'.calls = [] ++ [(65, true)] ∧ s'._kstate = KSTATE.GROUND ∧ s'.rx = [] :=
  c8_arrow_keys vk_ascii
    { _vt_kh := true, _kstate := KSTATE.GROUND, _before_wtilde := 0, rx := [91, 65], calls := [] }
    65 [] 0 rfl rfl rfl (Or.inl rfl)

/-- C9: with a handler assigned and the decoder in GROUND, the bytes 0x1B, '[', z with z none of
65..68, 50, 51, 53, 54 (both follow-up bytes ready on the link) continue exactly as
`vt_handle_key(z)` from GROUND after the two calls `(VK_ESC, true)` and `('[', false)`; for
z = 'Z' (which is not ENTER, TAB or BACKSPACE) that makes exactly the three calls
`(VK_ESC, true)`, `('[', false)`, `('Z', false)` and returns in GROUND. -/
theorem c9_bad_bracket_key (k : VKeys) (s : Term) (z : Nat) (rest : List Nat) (fuel : Nat)
    (hkh : s._vt_kh = true) (hg : s._kstate = KSTATE.GROUND) (hrx : s.rx = 91 :: z :: rest)
    (hz1 : ¬ (z = 65 ∨ z = 66 ∨ z = 67 ∨ z = 68))
    (hz2 : ¬ (z = 50 ∨ z = 51 ∨ z = 53 ∨ z = 54)) :
    vt_handle_key k (fuel + 3) s 27 =
      vt_handle_key k fuel
        { s with rx := rest, calls := s.calls ++ [(k.VK_ESC, true), (91, false)] } z ∧
    (z = 90 → 90 ≠ k.VK_ENTER → 90 ≠ k.VK_TAB → 90 ≠ k.VK_BACKSPACE →
      ∃ s', vt_handle_key k (fuel + 4) s 27 = some s' ∧
        s'.calls = s.calls ++ [(k.VK_ESC, true), (91, false), (90, false)] ∧
        s'._kstate = KSTATE.GROUND ∧ s'.rx = rest) := by
  obtain ⟨kh, st, bw, rx, calls⟩ := s
  simp only at hkh hg hrx
  subst hkh hg hrx
  constructor
  · simp only [vt_handle_key, _vt_kh_abort, call_kh, hz1, hz2, List.append_assoc,
      List.singleton_append, Bool.true_eq_false, if_false, if_true, ne_eq, not_false_eq_true,
      reduceCtorEq, Nat.reduceEqDiff, Option.map_some', Option.some_bind]
    generalize vt_handle_key k fuel
      { _vt_kh := true, _kstate := KSTATE.GROUND, _before_wtilde := bw, rx := rest,
        calls := calls ++ [(k.VK_ESC, true), (91, false)] } z = r
    cases r <;> rfl
  · intro hz h1 h2 h3
    subst hz
    exact ⟨{ _vt_kh := true, _kstate := KSTATE.GROUND, _before_wtilde := bw, rx := rest,
             calls := calls ++ [(k.VK_ESC, true), (91, false), (90, false)] },
      by simp [vt_handle_key, _vt_kh_abort, call_kh, h1, h2, h3], rfl, rfl, rfl⟩

theorem c9_bad_bracket_key_witness :
    vt_handle_key vk_ascii (1 + 3)
        { _vt_kh := true, _kstate := KSTATE.GROUND, _before_wtilde := 0, rx := [91, 90],
          calls := [] } 27 =
      vt_handle_key vk_ascii 1
        { _vt_kh := true, _kstate := KSTATE.GROUND, _before_wtilde := 0, rx := [],
          calls := [] ++ [(vk_ascii.VK_ESC, true), (91, false)] } 90 ∧
    ∃ s', vt_handle_key vk_ascii (1 + 4)
        { _vt_kh := true, _kstate := KSTATE.GROUND, _before_wtilde := 0, rx := [91, 90],
          calls := [] } 27 = some s' ∧
      s'.calls = [] ++ [(vk_ascii.VK_ESC, true), (91, false), (90, false)] ∧
      s'._kstate = KSTATE.GROUND ∧ s'.rx = [] :=
  ⟨(c9_bad_bracket_key vk_ascii
      { _vt_kh := true, _kstate := KSTATE.GROUND, _before_wtilde := 0, rx := [91, 90],
        calls := [] } 90 [] 1 rfl rfl rfl (by decide) (by decide)).1,
   (c9_bad_bracket_key vk_ascii
      { _vt_kh := true, _kstate := KSTATE.GROUND, _before_wtilde := 0, rx := [91, 90],
        calls := [] } 90 [] 1 rfl rfl rfl (by decide) (by decide)).2
      rfl (by decide) (by decide) (by decide)⟩

theorem waiting_tilde_accepts_tilde (k : VKeys) (s : Term) (fuel : Nat)
    (hkh : s._vt_kh = true) (hst : s._kstate = KSTATE.WAITING_TILDE) :
    vt_handle_key k (fuel + 1) s 126 =
      some { call_kh s s._before_wtilde true with _kstate := KSTATE.GROUND } := by
  simp [vt_handle_key, hkh, hst]

theorem waiting_tilde_never_returns (k : VKeys) (fuel : Nat) :
    ∀ (s : Term) (c : Nat), s._vt_kh = true → s._kstate = KSTATE.WAITING_TILDE →
      s._before_wtilde ≠ 126 → c ≠ 126 → vt_handle_key k fuel s c = none := by
  induction fuel with
  | zero => intro s c _ _ _ _; rfl
  | succ n ih =>
    intro s c hkh hst hp hc
    have hrec : vt_handle_key k n
        (call_kh (call_kh s k.VK_ESC true) 91 false) s._before_wtilde = none :=
      ih _ _ hkh hst hp hp
    simp [vt_handle_key, _vt_kh_abort, hkh, hst, hc, hrec, call_kh] at hrec ⊢
    simp [hrec]

/-- C10, evaluated at 0x1B, '[', '2', 'x': whatever bound is put on the depth of the calls,
`vt_handle_key` does not return. In WAITING_TILDE `_vt_kh_abort` calls
`vt_handle_key(_before_wtilde)` before `_kstate` is reset, so that call aborts again, without
end. -/
theorem c10_abort_never_returns (k : VKeys) (fuel : Nat) :
    vt_handle_key k fuel
      { _vt_kh := true, _kstate := KSTATE.GROUND, _before_wtilde := 0, rx := [91, 50, 120],
        calls := [] } 27 = none := by
  have h := fun n => waiting_tilde_never_returns k n
    { _vt_kh := true, _kstate := KSTATE.WAITING_TILDE, _before_wtilde := 50, rx := [],
      calls := [] } 120 rfl rfl (by decide) (by decide)
  match fuel with
  | 0 => rfl
  | 1 => simp [vt_handle_key]
  | 2 => simp [vt_handle_key]
  | n + 3 => simp [vt_handle_key, h n]

/-! ## Key decoder without a handler; brightness range; cursor bound -/

/-- C11: with no handler assigned, `vt_handle_key(c)` returns at once for every state and
byte: no handler call is made, `_kstate` and `_before_wtilde` are unchanged and no byte is
taken from the link. -/
theorem c11_no_handler (k : VKeys) (s : Term) (c fuel : Nat) (hkh : s._vt_kh = false) :
    vt_handle_key k (fuel + 1) s c = some s := by
  simp [vt_handle_key, hkh]

theorem c11_no_handler_witness :
    vt_handle_key vk_ascii (0 + 1)
      { _vt_kh := false, _kstate := KSTATE.WAITING_TILDE, _before_wtilde := 50, rx := [120],
        calls := [] } 120
      = some { _vt_kh := false, _kstate := KSTATE.WAITING_TILDE, _before_wtilde := 50,
               rx := [120], calls := [] } :=
  c11_no_handler vk_ascii
    { _vt_kh := false, _kstate := KSTATE.WAITING_TILDE, _before_wtilde := 50, rx := [120],
      calls := [] } 120 0 rfl

/-- C12 as stated fails: for the levels 254 and 255 the decoder sets the threshold 255, the
last entry of `BRIGHT_128`, which is outside 0..254. -/
theorem c12_counterexample :
    (USART_RX_vect { power_on with state := Mode.STATE_BRIGHTNESS } 255).is_done = true ∧
    (USART_RX_vect { power_on with state := Mode.STATE_BRIGHTNESS } 255).final.delay_l = 255 ∧
    (USART_RX_vect { power_on with state := Mode.STATE_BRIGHTNESS } 254).final.delay_l = 255 ∧
    pgm_read_byte BRIGHT_128 (255 / 2) = some 255 := by
  refine ⟨?_, ?_, ?_, ?_⟩ <;> decide

/-- C12, amended: for every level byte `v` in 0..255 the threshold the decoder derives,
`BRIGHT_128[v / 2]`, lies in 0..255; it lies in 0..254 exactly when `v` is at most 253. -/
theorem c12_threshold_range (s : Mcu) (v : Nat) (hs : s.state = Mode.STATE_BRIGHTNESS)
    (hv : v < 256) :
    ∃ s', USART_RX_vect s v = Run.done s' ∧
      pgm_read_byte BRIGHT_128 (v / 2) = some s'.delay_l ∧
      s'.delay_l ≤ 255 ∧ (s'.delay_l ≤ 254 ↔ v ≤ 253) := by
  obtain ⟨hrun, hrd⟩ := isr_brightness s v hs hv
  refine ⟨_, hrun, hrd, ?_, ?_⟩
  · show BRIGHT_128.getD (v / 2) 0 ≤ 255
    have h := bright_getD_mono (v / 2) 127 (by omega) (by omega)
    have h127 : BRIGHT_128.getD 127 0 = 255 := by decide
    omega
  · show BRIGHT_128.getD (v / 2) 0 ≤ 254 ↔ v ≤ 253
    constructor
    · intro h
      by_contra hc
      have h1 := bright_getD_mono 127 (v / 2) (by omega) (by omega)
      have h127 : BRIGHT_128.getD 127 0 = 255 := by decide
      omega
    · intro h
      have h1 := bright_getD_mono (v / 2) 126 (by omega) (by omega)
      have h126 : BRIGHT_128.getD 126 0 = 254 := by decide
      omega

theorem c12_threshold_range_witness :
    ∃ s', USART_RX_vect { power_on with state := Mode.STATE_BRIGHTNESS } 128 = Run.done s' ∧
      pgm_read_byte BRIGHT_128 (128 / 2) = some s'.delay_l ∧
      s'.delay_l ≤ 255 ∧ (s'.delay_l ≤ 254 ↔ 128 ≤ 253) :=
  c12_threshold_range { power_on with state := Mode.STATE_BRIGHTNESS } 128 rfl (by decide)

theorem num2seg_read (i : Nat) (hi : i < 16) :
    ∃ v, pgm_read_byte num2seg i = some v ∧ v &&& SEG_DP = 0 := by
  interval_cases i <;> exact ⟨_, rfl, by decide⟩

theorem isr_ascii_symbol (s : Mcu) (b : Nat) (hs : s.state = Mode.STATE_ASCII)
    (hi : s.scr_buf_i < 8) (hb : b ≠ 46) :
    ∃ v s', v &&& SEG_DP = 0 ∧ USART_RX_vect s b = Run.done s' ∧
      Stored Mode.STATE_ASCII s v s' := by
  have key : ∃ v, v &&& SEG_DP = 0 ∧
      USART_RX_vect s b = (push_buf (uart_tx s b) v).andThen (fun s =>
        if s.scr_buf_i = 8 then Run.done (set_state (cpy_buf2scr s) Mode.STATE_NONE)
        else Run.done s) := by
    have hst : (uart_tx s b).state = Mode.STATE_ASCII := hs
    have hc46 : (if 97 ≤ b ∧ b ≤ 122 then b - (97 - 65) else b) ≠ 46 := by
      split_ifs <;> omega
    simp only [USART_RX_vect, hst]
    generalize (if 97 ≤ b ∧ b ≤ 122 then b - (97 - 65) else b) = c at hc46 ⊢
    split_ifs with h1 h2 h3
    · obtain ⟨v, hv, hdp⟩ := num2seg_read (c - 48) (by omega)
      rw [hv]
      exact ⟨v, hdp, rfl⟩
    · obtain ⟨v, hv, hdp⟩ := num2seg_read (10 + (c - 65)) (by omega)
      rw [hv]
      exact ⟨v, hdp, rfl⟩
    · exact ⟨SEG_G, by decide, rfl⟩
    · exact ⟨SYM_BLANK, by decide, rfl⟩
  obtain ⟨v, hdp, hrun⟩ := key
  obtain ⟨s', h1, h2⟩ := push_commit (uart_tx s b) v hi
  exact ⟨v, s', hdp, hrun.trans h1, by rw [← hs]; exact h2⟩

theorem isr_ascii_dot (s : Mcu) (hs : s.state = Mode.STATE_ASCII) (hi : s.scr_buf_i < 8) :
    ∃ s', USART_RX_vect s 46 = Run.done s' ∧ s'.scr_buf_i = s.scr_buf_i ∧
      s'.state = s.state ∧ s'.screen = s.screen ∧ s'.level = s.level ∧
      s'.delay_l = s.delay_l ∧
      ∀ j : Fin 8, s'.screen_buf j =
        if j.val + 1 = s.scr_buf_i then s.screen_buf j ||| SEG_DP else s.screen_buf j := by
  by_cases h0 : s.scr_buf_i = 0
  · refine ⟨uart_tx s 46, ?_, rfl, rfl, rfl, rfl, rfl, ?_⟩
    · simp [USART_RX_vect, hs, uart_tx, h0, Run.andThen]
    · intro j
      simp [uart_tx, h0]
  · have hlt : s.scr_buf_i - 1 < 8 := by omega
    refine ⟨{ uart_tx s 46 with
        screen_buf := Function.update s.screen_buf ⟨s.scr_buf_i - 1, hlt⟩
          (s.screen_buf ⟨s.scr_buf_i - 1, hlt⟩ ||| SEG_DP),
        trace := (uart_tx s 46).trace ++ [Ev.wr Var.screen_buf] }, ?_, rfl, rfl, rfl, rfl, rfl, ?_⟩
    · have hpos : 0 < s.scr_buf_i := by omega
      have hne : s.scr_buf_i ≠ 8 := by omega
      simp [USART_RX_vect, hs, uart_tx, hpos, or_buf, hlt, Run.andThen, hne]
    · intro j
      by_cases hj : j.val + 1 = s.scr_buf_i
      · have : j = ⟨s.scr_buf_i - 1, hlt⟩ := Fin.ext (by simp; omega)
        subst this
        simp [hj]
      · have : j ≠ ⟨s.scr_buf_i - 1, hlt⟩ := fun h => hj (by rw [h]; simp; omega)
        simp [Function.update_noteq this, hj]

theorem stored_cursor_ok (m : Mode) (s s' : Mcu) (v : Nat) (hi : s.scr_buf_i < 8)
    (h : Stored m s v s') : cursor_ok s' := by
  obtain ⟨hc, _, _, _, hlt, heq⟩ := h
  refine ⟨by omega, ?_⟩
  intro hm
  by_cases h7 : s.scr_buf_i = 7
  · have := (heq h7).1
    rw [this] at hm
    rcases hm with h | h <;> cases h
  · omega

theorem isr_cursor_ok (s : Mcu) (b : Nat) (hb : b < 256) (hok : cursor_ok s) :
    ∃ s', USART_RX_vect s b = Run.done s' ∧ cursor_ok s' := by
  obtain ⟨h8, h7⟩ := hok
  cases hs : s.state with
  | STATE_NONE =>
    have hst : (uart_tx s b).state = Mode.STATE_NONE := hs
    simp only [USART_RX_vect, hst]
    generalize (if 97 ≤ b ∧ b ≤ 122 then b - (97 - 65) else b) = c
    split_ifs
    · exact ⟨_, rfl, by simp [cursor_ok, set_scr_buf_i]⟩
    · exact ⟨_, rfl, by simp [cursor_ok, set_scr_buf_i]⟩
    · exact ⟨_, rfl, by simp [cursor_ok, blank_loop_eq, uart_tx, hs, h8]⟩
    · exact ⟨_, rfl, by simp [cursor_ok, set_state, uart_tx, h8]⟩
    · exact ⟨_, rfl, by simp [cursor_ok, uart_tx, hs, h8]⟩
  | STATE_BRIGHTNESS =>
    exact ⟨_, (isr_brightness s b hs hb).1,
      by simp [cursor_ok, set_state, set_delay_l, set_level, uart_tx, h8]⟩
  | STATE_ASCII =>
    have hi : s.scr_buf_i < 8 := by have := h7 (Or.inl hs); omega
    by_cases hb46 : b = 46
    · subst hb46
      obtain ⟨s', hrun, hc, hst, _⟩ := isr_ascii_dot s hs hi
      exact ⟨s', hrun, by rw [cursor_ok, hc, hst]; exact ⟨h8, h7⟩⟩
    · obtain ⟨v, s', _, hrun, hsto⟩ := isr_ascii_symbol s b hs hi hb46
      exact ⟨s', hrun, stored_cursor_ok _ s s' v hi hsto⟩
  | STATE_BINARY =>
    have hi : s.scr_buf_i < 8 := by have := h7 (Or.inr hs); omega
    obtain ⟨s', hrun, hsto⟩ := isr_binary s b hs hi
    exact ⟨s', hrun, stored_cursor_ok _ s s' b hi hsto⟩

theorem feed_cursor_ok (bs : List Nat) :
    ∀ s : Mcu, cursor_ok s → (∀ b ∈ bs, b < 256) →
      ∃ s', feed s bs = Run.done s' ∧ cursor_ok s' := by
  induction bs with
  | nil => intro s hok _; exact ⟨s, rfl, hok⟩
  | cons b bs ih =>
    intro s hok hbs
    obtain ⟨s1, hrun, hok1⟩ := isr_cursor_ok s b (hbs b (List.mem_cons_self b bs)) hok
    obtain ⟨s', hrun', hok'⟩ := ih s1 hok1 (fun c hc => hbs c (List.mem_cons_of_mem b hc))
    exact ⟨s', by rw [feed_cons_done _ _ _ _ hrun]; exact hrun', hok'⟩

theorem power_on_cursor_ok : cursor_ok power_on := by
  simp [cursor_ok, power_on]

theorem reachable_cursor_ok (s : Mcu) (h : Reachable s) : cursor_ok s := by
  obtain ⟨bs, hbs, hrun⟩ := h
  obtain ⟨s', hrun', hok⟩ := feed_cursor_ok bs power_on power_on_cursor_ok hbs
  rw [hrun] at hrun'
  cases hrun'
  exact hok

/-- C13: whatever bytes are received after power-on, the interrupt routine never accesses
`screen_buf` outside its 8 elements (the run reaches its end), the cursor `scr_buf_i` ends at
most 8, and at most 7 whenever the mode is ASCII_INPUT or BINARY_INPUT. -/
theorem c13_cursor_in_bounds (bs : List Nat) (hbs : ∀ b ∈ bs, b < 256) :
    ∃ s, feed power_on bs = Run.done s ∧ s.scr_buf_i ≤ 8 ∧
      ((s.state = Mode.STATE_ASCII ∨ s.state = Mode.STATE_BINARY) → s.scr_buf_i ≤ 7) :=
  feed_cursor_ok bs power_on power_on_cursor_ok hbs

theorem c13_cursor_in_bounds_witness :
    ∃ s, feed power_on [65, 49, 46, 50, 82, 255, 0, 46, 46, 51, 52, 53, 54, 46, 66, 46] = Run.done s ∧
      s.scr_buf_i ≤ 8 ∧
      ((s.state = Mode.STATE_ASCII ∨ s.state = Mode.STATE_BINARY) → s.scr_buf_i ≤ 7) :=
  c13_cursor_in_bounds [65, 49, 46, 50, 82, 255, 0, 46, 46, 51, 52, 53, 54, 46, 66, 46] (by decide)

/-! ## The decimal point in ASCII mode -/

/-- C14: in ASCII_INPUT mode with the cursor inside the array, '.' leaves the cursor, the mode,
the live buffer and the brightness as they were; with cursor 0 the staging buffer is unchanged
too; otherwise staging slot cursor-1 gets bit 7 (0x80) set, its other bits are unchanged, and
every other slot is unchanged. -/
theorem c14_dot_frame (s : Mcu) (hs : s.state = Mode.STATE_ASCII) (hc : s.scr_buf_i ≤ 7) :
    ∃ s', USART_RX_vect s 46 = Run.done s' ∧ s'.scr_buf_i = s.scr_buf_i ∧
      s'.state = s.state ∧ s'.screen = s.screen ∧ s'.level = s.level ∧
      s'.delay_l = s.delay_l ∧
      (s.scr_buf_i = 0 → s'.screen_buf = s.screen_buf) ∧
      (∀ j : Fin 8, j.val + 1 ≠ s.scr_buf_i → s'.screen_buf j = s.screen_buf j) ∧
      (∀ j : Fin 8, j.val + 1 = s.scr_buf_i →
        s'.screen_buf j = s.screen_buf j ||| SEG_DP ∧
        (s'.screen_buf j).testBit 7 = true ∧
        ∀ n, n ≠ 7 → (s'.screen_buf j).testBit n = (s.screen_buf j).testBit n) := by
  obtain ⟨s', hrun, h1, h2, h3, h4, h5, hbuf⟩ := isr_ascii_dot s hs (by omega)
  refine ⟨s', hrun, h1, h2, h3, h4, h5, ?_, ?_, ?_⟩
  · intro h0
    funext j
    rw [hbuf j, if_neg (by omega)]
  · intro j hj
    rw [hbuf j, if_neg hj]
  · intro j hj
    rw [hbuf j, if_pos hj]
    have h128 : SEG_DP = 2 ^ 7 := by decide
    refine ⟨rfl, ?_, ?_⟩
    · rw [Nat.testBit_or, h128, Nat.testBit_two_pow_self, Bool.or_true]
    · intro n hn
      rw [Nat.testBit_or, h128, Nat.testBit_two_pow_of_ne (Ne.symm hn), Bool.or_false]

theorem c14_dot_frame_witness :
    ∃ s', USART_RX_vect { power_on with state := Mode.STATE_ASCII, scr_buf_i := 3 } 46
        = Run.done s' ∧
      s'.scr_buf_i = 3 ∧ s'.state = Mode.STATE_ASCII ∧ s'.screen = power_on.screen ∧
      s'.level = 255 ∧ s'.delay_l = 255 ∧
      ((3 : Nat) = 0 → s'.screen_buf = power_on.screen_buf) ∧
      (∀ j : Fin 8, j.val + 1 ≠ 3 → s'.screen_buf j = power_on.screen_buf j) ∧
      (∀ j : Fin 8, j.val + 1 = 3 →
        s'.screen_buf j = power_on.screen_buf j ||| SEG_DP ∧
        (s'.screen_buf j).testBit 7 = true ∧
        ∀ n, n ≠ 7 → (s'.screen_buf j).testBit n = (power_on.screen_buf j).testBit n) :=
  c14_dot_frame { power_on with state := Mode.STATE_ASCII, scr_buf_i := 3 } rfl (by decide)

theorem isr_none_dot (s : Mcu) (hs : s.state = Mode.STATE_NONE) :
    USART_RX_vect s 46 = Run.done (uart_tx s 46) := by
  have hst : (uart_tx s 46).state = Mode.STATE_NONE := hs
  simp [USART_RX_vect, hst]

/-- C15: for every state reachable from power-on that is in ASCII_INPUT mode and every byte,
the interrupt routine commits (the mode becomes IDLE) exactly when the cursor is 7 and the byte
is not '.'; the committed live digit `screen[7]` then has bit 0x80 clear, and a '.' received
next changes neither the live nor the staging buffer. -/
theorem c15_no_point_on_last (s : Mcu) (b : Nat) (hr : Reachable s)
    (hs : s.state = Mode.STATE_ASCII) :
    ∃ s', USART_RX_vect s b = Run.done s' ∧
      (s'.state = Mode.STATE_NONE ↔ (s.scr_buf_i = 7 ∧ b ≠ 46)) ∧
      (s'.state = Mode.STATE_NONE →
        s'.screen 7 &&& SEG_DP = 0 ∧
        ∃ s'', USART_RX_vect s' 46 = Run.done s'' ∧ s''.screen = s'.screen ∧
          s''.screen_buf = s'.screen_buf) := by
  have hok := reachable_cursor_ok s hr
  have hi : s.scr_buf_i < 8 := by have := hok.2 (Or.inl hs); omega
  by_cases hb : b = 46
  · subst hb
    obtain ⟨s', hrun, _, hst, _⟩ := isr_ascii_dot s hs hi
    have hne : s'.state ≠ Mode.STATE_NONE := by rw [hst, hs]; decide
    exact ⟨s', hrun, ⟨fun h => absurd h hne, fun h => absurd rfl h.2⟩, fun h => absurd h hne⟩
  · obtain ⟨v, s', hdp, hrun, _, hbuf, _, _, hlt, heq⟩ := isr_ascii_symbol s b hs hi hb
    refine ⟨s', hrun, ⟨?_, fun h => (heq h.1).1⟩, ?_⟩
    · intro hnone
      refine ⟨?_, hb⟩
      by_contra h7
      have := (hlt (by omega)).1
      rw [this] at hnone
      cases hnone
    · intro hnone
      have h7 : s.scr_buf_i = 7 := by
        by_contra h7
        have := (hlt (by omega)).1
        rw [this] at hnone
        cases hnone
      refine ⟨?_, uart_tx s' 46, isr_none_dot s' hnone, rfl, rfl⟩
      rw [(heq h7).2, hbuf 7, h7]
      simpa using hdp

theorem c15_no_point_on_last_witness :
    ∃ s', USART_RX_vect (feed power_on [65, 49, 50, 51, 52, 53, 54, 55]).final 56 = Run.done s' ∧
      (s'.state = Mode.STATE_NONE ↔
        ((feed power_on [65, 49, 50, 51, 52, 53, 54, 55]).final.scr_buf_i = 7 ∧ 56 ≠ 46)) ∧
      (s'.state = Mode.STATE_NONE →
        s'.screen 7 &&& SEG_DP = 0 ∧
        ∃ s'', USART_RX_vect s' 46 = Run.done s'' ∧ s''.screen = s'.screen ∧
          s''.screen_buf = s'.screen_buf) :=
  c15_no_point_on_last (feed power_on [65, 49, 50, 51, 52, 53, 54, 55]).final 56
    ⟨[65, 49, 50, 51, 52, 53, 54, 55], by decide, run_eq_done_final _ (by decide)⟩
    (by simp [feed, USART_RX_vect, uart_tx, power_on, set_state, set_scr_buf_i, push_buf,
      Run.andThen, Run.final, pgm_read_byte, num2seg])

/-! ## Case folding -/

/-- C16 as stated fails in BINARY_INPUT and BRIGHTNESS_INPUT: there the byte is used as
received, so 'a' (97) and 'A' (65) give different staging bytes, levels and thresholds. -/
theorem c16_counterexample :
    ((USART_RX_vect { power_on with state := Mode.STATE_BINARY } 97).final.screen_buf 0 = 97 ∧
     (USART_RX_vect { power_on with state := Mode.STATE_BINARY } 65).final.screen_buf 0 = 65) ∧
    ((USART_RX_vect { power_on with state := Mode.STATE_BRIGHTNESS } 97).final.level = 97 ∧
     (USART_RX_vect { power_on with state := Mode.STATE_BRIGHTNESS } 65).final.level = 65 ∧
     (USART_RX_vect { power_on with state := Mode.STATE_BRIGHTNESS } 97).final.delay_l = 30 ∧
     (USART_RX_vect { power_on with state := Mode.STATE_BRIGHTNESS } 65).final.delay_l = 11) := by
  refine ⟨⟨?_, ?_⟩, ⟨?_, ?_, ?_, ?_⟩⟩ <;> decide

theorem same_globals_refl (a : Mcu) : same_globals a a := ⟨rfl, rfl, rfl, rfl, rfl, rfl⟩

theorem push_commit_trace_free (s : Mcu) (tr1 tr2 : List Ev) (v : Nat) :
    ((push_buf { s with trace := tr1 } v).andThen (fun s =>
        if s.scr_buf_i = 8 then Run.done (set_state (cpy_buf2scr s) Mode.STATE_NONE)
        else Run.done s)).is_done =
      ((push_buf { s with trace := tr2 } v).andThen (fun s =>
        if s.scr_buf_i = 8 then Run.done (set_state (cpy_buf2scr s) Mode.STATE_NONE)
        else Run.done s)).is_done ∧
    same_globals
      ((push_buf { s with trace := tr1 } v).andThen (fun s =>
        if s.scr_buf_i = 8 then Run.done (set_state (cpy_buf2scr s) Mode.STATE_NONE)
        else Run.done s)).final
      ((push_buf { s with trace := tr2 } v).andThen (fun s =>
        if s.scr_buf_i = 8 then Run.done (set_state (cpy_buf2scr s) Mode.STATE_NONE)
        else Run.done s)).final := by
  by_cases hi : s.scr_buf_i < 8
  · by_cases h8 : (s.scr_buf_i + 1) % 256 = 8
    · simp [push_buf, hi, Run.andThen, h8, Run.is_done, Run.final, same_globals, set_state,
        cpy_buf2scr_eq]
    · simp [push_buf, hi, Run.andThen, h8, Run.is_done, Run.final, same_globals]
  · simp [push_buf, hi, Run.andThen, Run.is_done, Run.final, same_globals]

/-- C16, amended: in IDLE and in ASCII_INPUT mode a lowercase letter 'a'..'z' leaves the same
mode, cursor, staging buffer, live buffer, level and threshold as the corresponding uppercase
letter from the same state (and faults exactly when that one does). -/
theorem c16_case_fold (s : Mcu) (b : Nat)
    (hs : s.state = Mode.STATE_NONE ∨ s.state = Mode.STATE_ASCII)
    (hb : 97 ≤ b ∧ b ≤ 122) :
    (USART_RX_vect s b).is_done = (USART_RX_vect s (b - 32)).is_done ∧
    same_globals (USART_RX_vect s b).final (USART_RX_vect s (b - 32)).final := by
  have hf1 : (if 97 ≤ b ∧ b ≤ 122 then b - (97 - 65) else b) = b - 32 := by
    rw [if_pos hb]
  have hf2 : (if 97 ≤ b - 32 ∧ b - 32 ≤ 122 then b - 32 - (97 - 65) else b - 32) = b - 32 := by
    rw [if_neg (by omega)]
  have hc1 : 65 ≤ b - 32 := by omega
  have hc2 : b - 32 ≤ 90 := by omega
  obtain ⟨buf, i, scr, lvl, dl, st, tr⟩ := s
  simp only at hs
  rcases hs with hs | hs <;> subst hs
  · simp only [USART_RX_vect, uart_tx, hf1, hf2]
    generalize b - 32 = c
    split_ifs <;>
      simp [Run.is_done, Run.final, same_globals, set_state, set_scr_buf_i, blank_loop_eq]
  · simp only [USART_RX_vect, uart_tx, hf1, hf2]
    generalize b - 32 = c at hc1 hc2 ⊢
    have hd : ¬ (48 ≤ c ∧ c ≤ 57) := by omega
    have hm : c ≠ 45 := by omega
    have hp : c ≠ 46 := by omega
    simp only [hd, hm, hp, if_false]
    split_ifs with hx
    · obtain ⟨v, hv, _⟩ := num2seg_read (10 + (c - 65)) (by omega)
      simp only [hv]
      exact push_commit_trace_free ⟨buf, i, scr, lvl, dl, Mode.STATE_ASCII, tr⟩ _ _ v
    · exact push_commit_trace_free ⟨buf, i, scr, lvl, dl, Mode.STATE_ASCII, tr⟩ _ _ SYM_BLANK

theorem c16_case_fold_witness :
    (USART_RX_vect { power_on with state := Mode.STATE_ASCII } 102).is_done
      = (USART_RX_vect { power_on with state := Mode.STATE_ASCII } (102 - 32)).is_done ∧
    same_globals (USART_RX_vect { power_on with state := Mode.STATE_ASCII } 102).final
      (USART_RX_vect { power_on with state := Mode.STATE_ASCII } (102 - 32)).final :=
  c16_case_fold { power_on with state := Mode.STATE_ASCII } 102 (Or.inr rfl) (by decide)

/-! ## Loading the shift registers -/

theorem top_bit_eq (w : Nat) : decide (w &&& 0x8000 ≠ 0) = w.testBit 15 := by
  have h : (0x8000 : Nat) = 2 ^ 15 := by decide
  rw [h, Nat.and_two_pow]
  cases w.testBit 15 <;> simp

theorem shifted_testBit (w i : Nat) (hi : i < 15) :
    ((w <<< 1) % 65536).testBit (15 - i) = w.testBit (15 - (i + 1)) := by
  have h : (65536 : Nat) = 2 ^ 16 := by decide
  rw [h, Nat.testBit_mod_two_pow, Nat.testBit_shiftLeft]
  have h1 : 15 - i < 16 := by omega
  have h2 : 15 - i ≥ 1 := by omega
  have h3 : 15 - i - 1 = 15 - (i + 1) := by omega
  simp [h1, h2, h3]

theorem shift_out_bits (n : Nat) :
    ∀ w, n ≤ 16 →
      shift_out n w = ((List.range n).map fun i => w.testBit (15 - i)).flatMap clocked_bit := by
  induction n with
  | zero => intro w _; rfl
  | succ n ih =>
    intro w hn
    have hmap : (List.range n).map (fun i => ((w <<< 1) % 65536).testBit (15 - i))
        = (List.range n).map (fun i => w.testBit (15 - (i + 1))) :=
      List.map_congr_left (fun i hi => shifted_testBit w i (by
        have := List.mem_range.mp hi
        omega))
    rw [shift_out, ih _ (by omega), hmap, top_bit_eq, List.range_succ_eq_map]
    simp [List.map_map, Function.comp_def, clocked_bit]

/-- C18: for every place 0..7 and segment byte, `disp_load` puts the 16 bits of a word `w` on
the data line, most significant first, each followed by one clock pulse, and ends with one
strobe pulse; `w` is 0 when the segment byte is 0, and otherwise has the segment byte as low
byte and `2 ^ place` as high byte. -/
theorem c18_disp_load_word (place segments : Nat) (hp : place < 8) (hs : segments < 256) :
    ∃ w, w < 65536 ∧ (segments = 0 → w = 0) ∧
      (segments ≠ 0 → w % 256 = segments ∧ w / 256 = 2 ^ place) ∧
      (bits_msb_first w).length = 16 ∧
      disp_load place segments =
        (bits_msb_first w).flatMap clocked_bit ++ [pin_high Pin.IO_STR, pin_low Pin.IO_STR] := by
  have hword : (1 <<< (place + 8)) ||| segments = 256 * 2 ^ place + segments := by
    have h := Nat.mul_add_lt_is_or (i := 8) (b := segments) (by simpa using hs) (2 ^ place)
    rw [Nat.one_shiftLeft, Nat.pow_add, Nat.mul_comm (2 ^ place) (2 ^ 8), ← h]
  have hpow : 2 ^ place ≤ 128 := by
    have := Nat.pow_le_pow_right (n := 2) (by decide) (Nat.le_of_lt_succ hp)
    simpa using this
  refine ⟨if segments = 0 then 0 else 256 * 2 ^ place + segments, ?_, ?_, ?_, ?_, ?_⟩
  · split_ifs <;> omega
  · intro h; simp [h]
  · intro h
    rw [if_neg h]
    constructor <;> omega
  · simp [bits_msb_first]
  · have hw : (if segments = 0 then 0 else ((1 <<< (place + 8)) ||| segments) % 65536)
        = if segments = 0 then 0 else 256 * 2 ^ place + segments := by
      split_ifs
      · rfl
      · rw [hword]; omega
    simp only [disp_load, hw, bits_msb_first]
    rw [shift_out_bits 16 _ (Nat.le_refl 16)]

theorem c18_disp_load_word_witness :
    ∃ w, w < 65536 ∧ ((6 : Nat) = 0 → w = 0) ∧
      ((6 : Nat) ≠ 0 → w % 256 = 6 ∧ w / 256 = 2 ^ 3) ∧
      (bits_msb_first w).length = 16 ∧
      disp_load 3 6 =
        (bits_msb_first w).flatMap clocked_bit ++ [pin_high Pin.IO_STR, pin_low Pin.IO_STR] :=
  c18_disp_load_word 3 6 (by decide) (by decide)

/-! ## The display loop -/

theorem hold_loop_eq (blank : List PinEv) (d : PinEv) (t n : Nat) :
    ((List.range n).flatMap fun j => (if j = t then blank else []) ++ [d])
      = List.replicate (min t n) d ++ (if t < n then blank else []) ++
          List.replicate (n - t) d := by
  induction n with
  | zero => simp
  | succ n ih =>
    rw [List.range_succ, List.flatMap_append, ih, List.flatMap_singleton]
    rcases Nat.lt_trichotomy t n with h | h | h
    · have h1 : min t n = t := by omega
      have h2 : min t (n + 1) = t := by omega
      have h3 : n + 1 - t = (n - t) + 1 := by omega
      have h4 : n ≠ t := by omega
      have h5 : t < n + 1 := by omega
      simp only [h1, h2, h3, h, h4, h5, if_true, if_false, List.replicate_succ',
        List.nil_append, List.append_assoc]
    · subst h
      have h1 : min t t = t := by omega
      have h2 : min t (t + 1) = t := by omega
      simp [h1, h2]
    · have h1 : min t n = n := by omega
      have h2 : min t (n + 1) = n + 1 := by omega
      have h3 : n - t = 0 := by omega
      have h4 : n + 1 - t = 0 := by omega
      have h5 : n ≠ t := by omega
      have h6 : ¬ t < n := by omega
      have h7 : ¬ t < n + 1 := by omega
      simp only [h1, h2, h3, h4, h5, h6, h7, if_false, List.replicate_succ',
        List.nil_append, List.append_nil, List.replicate_zero, List.append_assoc]

/-- C19: in one turn of the display loop for digit `i`, with the threshold `t` (a byte) held
constant, `screen[i]` is loaded once and 255 timing iterations follow; for `t <= 254` exactly
`t` of them pass, then the all-zero word is loaded once (at iteration `j = t`), then the
remaining `255 - t` pass; for `t = 255` all 255 pass and the all-zero word is never loaded. -/
theorem c19_blanking_point (screen : Fin 8 → Nat) (i : Fin 8) (t : Nat) (ht : t ≤ 255) :
    show_digit screen t i =
      disp_load i.val (screen i) ++ List.replicate t (PinEv.delay_cycles 5) ++
        (if t ≤ 254 then disp_load 0 0 else []) ++
        List.replicate (255 - t) (PinEv.delay_cycles 5) ∧
    disp_load 0 0 =
      (List.replicate 16 false).flatMap clocked_bit ++ [pin_high Pin.IO_STR, pin_low Pin.IO_STR] ∧
    (show_digit screen t i).count (PinEv.delay_cycles 5) = 255 := by
  have hmin : min t 255 = t := by omega
  have hform : show_digit screen t i =
      disp_load i.val (screen i) ++ List.replicate t (PinEv.delay_cycles 5) ++
        (if t ≤ 254 then disp_load 0 0 else []) ++
        List.replicate (255 - t) (PinEv.delay_cycles 5) := by
    rw [show_digit, hold_loop_eq, hmin]
    have hiff : (t < 255) = (t ≤ 254) := by
      apply propext
      omega
    simp only [hiff, List.append_assoc]
  have hnodelay : ∀ p s : Nat, (disp_load p s).count (PinEv.delay_cycles 5) = 0 := by
    intro p s
    rw [List.count_eq_zero]
    intro hmem
    simp only [disp_load, List.mem_append] at hmem
    rcases hmem with hmem | hmem
    · rw [shift_out_bits 16 _ (Nat.le_refl 16)] at hmem
      simp [clocked_bit, pin_high, pin_low] at hmem
    · simp [pin_high, pin_low] at hmem
  refine ⟨hform, by decide, ?_⟩
  rw [hform]
  simp only [List.count_append, hnodelay, List.count_replicate_self]
  split_ifs
  · rw [hnodelay]; omega
  · simp; omega

theorem c19_blanking_point_witness :
    show_digit (fun _ => 6) 100 2 =
      disp_load (2 : Fin 8).val 6 ++ List.replicate 100 (PinEv.delay_cycles 5) ++
        (if 100 ≤ 254 then disp_load 0 0 else []) ++
        List.replicate (255 - 100) (PinEv.delay_cycles 5) ∧
    disp_load 0 0 =
      (List.replicate 16 false).flatMap clocked_bit ++ [pin_high Pin.IO_STR, pin_low Pin.IO_STR] ∧
    (show_digit (fun _ => 6) 100 2).count (PinEv.delay_cycles 5) = 255 :=
  c19_blanking_point (fun _ => 6) 2 100 (by decide)

/-! ## Key decoder: the timeout in WAITING_TILDE, plain bytes in GROUND -/

/-- C17, evaluated at 0x1B, '[', '2' and at 0x1B, '[', '5', each followed by the timeout:
whatever bound is put on the depth of the calls, `vt_handle_key` does not return. The abort
taken on the timeout in WAITING_TILDE calls `vt_handle_key(_before_wtilde)` while `_kstate`
is still WAITING_TILDE, which aborts again, without end. -/
theorem c17_timeout_never_returns (k : VKeys) (fuel : Nat) :
    vt_handle_key k fuel
      { _vt_kh := true, _kstate := KSTATE.GROUND, _before_wtilde := 0, rx := [91, 50],
        calls := [] } 27 = none ∧
    vt_handle_key k fuel
      { _vt_kh := true, _kstate := KSTATE.GROUND, _before_wtilde := 0, rx := [91, 53],
        calls := [] } 27 = none := by
  have h2 := fun n => waiting_tilde_never_returns k n
    { _vt_kh := true, _kstate := KSTATE.WAITING_TILDE, _before_wtilde := 50, rx := [],
      calls := [(k.VK_ESC, true), (91, false)] } 50 rfl rfl
    (show (50 : Nat) ≠ 126 by decide) (by decide)
  have h5 := fun n => waiting_tilde_never_returns k n
    { _vt_kh := true, _kstate := KSTATE.WAITING_TILDE, _before_wtilde := 53, rx := [],
      calls := [(k.VK_ESC, true), (91, false)] } 53 rfl rfl
    (show (53 : Nat) ≠ 126 by decide) (by decide)
  match fuel with
  | 0 => exact ⟨rfl, rfl⟩
  | 1 => constructor <;> simp [vt_handle_key]
  | 2 => constructor <;> simp [vt_handle_key]
  | n + 3 => constructor <;> simp [vt_handle_key, _vt_kh_abort, call_kh, h2 n, h5 n]

theorem handle_keys_ground (k : VKeys) (fuel : Nat) (l : List Nat) :
    ∀ s : Term, s._vt_kh = true → s._kstate = KSTATE.GROUND → (∀ b ∈ l, b ≠ 27) →
      handle_keys k (fuel + 1) s l =
        some { s with calls := s.calls ++ l.map (ground_event k) } := by
  induction l with
  | nil => intro s _ _ _; simp [handle_keys]
  | cons c cs ih =>
    intro s hkh hg hl
    have hc : c ≠ 27 := hl c (List.mem_cons_self c cs)
    have hstep : vt_handle_key k (fuel + 1) s c = some (call_kh s (ground_event k c).1
        (ground_event k c).2) := by
      by_cases hsp : c = k.VK_ENTER ∨ c = k.VK_TAB ∨ c = k.VK_BACKSPACE
      · simp [vt_handle_key, hkh, hg, hc, hsp, ground_event]
      · simp [vt_handle_key, hkh, hg, hc, hsp, ground_event]
    rw [handle_keys, hstep, Option.some_bind,
      ih (call_kh s (ground_event k c).1 (ground_event k c).2) hkh hg
        (fun b hb => hl b (List.mem_cons_of_mem c hb))]
    simp [call_kh]

/-- C20: with a handler assigned and the decoder in GROUND, bytes without 0x1B handed to
`vt_handle_key` one call at a time give, after every number `n` of them, exactly one handler
call per byte, in input order, with the byte as code and the special flag set exactly for
ENTER, TAB and BACKSPACE; the decoder is in GROUND and no byte was taken from the link. -/
theorem c20_ground_literals (k : VKeys) (s : Term) (bs : List Nat) (fuel n : Nat)
    (hkh : s._vt_kh = true) (hg : s._kstate = KSTATE.GROUND) (hbs : ∀ b ∈ bs, b ≠ 27) :
    ∃ s', handle_keys k (fuel + 1) s (bs.take n) = some s' ∧
      s'.calls = s.calls ++ (bs.take n).map (ground_event k) ∧
      s'._kstate = KSTATE.GROUND ∧ s'.rx = s.rx ∧
      (∀ c, (ground_event k c).1 = c ∧
        ((ground_event k c).2 = true ↔ (c = k.VK_ENTER ∨ c = k.VK_TAB ∨ c = k.VK_BACKSPACE))) := by
  refine ⟨_, handle_keys_ground k fuel (bs.take n) s hkh hg
    (fun b hb => hbs b (List.mem_of_mem_take hb)), rfl, hg, rfl, ?_⟩
  intro c
  simp [ground_event]

theorem c20_ground_literals_witness :
    ∃ s', handle_keys vk_ascii (0 + 1)
        { _vt_kh := true, _kstate := KSTATE.GROUND, _before_wtilde := 0, rx := [7],
          calls := [] } ([65, 13, 9, 8, 91, 126, 0, 255].take 6) = some s' ∧
      s'.calls = [] ++ ([65, 13, 9, 8, 91, 126, 0, 255].take 6).map (ground_event vk_ascii) ∧
      s'._kstate = KSTATE.GROUND ∧ s'.rx = [7] ∧
      (∀ c, (ground_event vk_ascii c).1 = c ∧
        ((ground_event vk_ascii c).2 = true ↔
          (c = vk_ascii.VK_ENTER ∨ c = vk_ascii.VK_TAB ∨ c = vk_ascii.VK_BACKSPACE))) :=
  c20_ground_literals vk_ascii
    { _vt_kh := true, _kstate := KSTATE.GROUND, _before_wtilde := 0, rx := [7], calls := [] }
    [65, 13, 9, 8, 91, 126, 0, 255] 0 6 rfl rfl (by decide)

end Seg7
